import Mathlib

/-!
Verification development for the `<table-maker>` data-table web component and the
`<tab-handler>` recursive tab-panel component (plain-JS custom elements).

The JavaScript source is shallowly embedded: JS runtime values are modelled by the
inductive `JVal`, JS numbers by the executable rational type `Q` (JS floats carry
decimal data in this program; we model them as exact rationals and document the
places where host/locale behaviour of external builtins — `Intl.NumberFormat`,
`JSON.parse`, `Date`, `localeCompare`, `Array.prototype.sort` — is modelled from
their documented behaviour rather than from repository code).  Pure functions of
the source become Lean functions; the component's mutable fields become explicit
state records; code paths that throw become `Except`/`Option` results.
-/

/-- Executable rational numbers: numerator, positive denominator.  Used to model
JavaScript numbers (which, in this program, always carry decimal data).  Values
are not kept normalised; all semantically relevant operations (ordering, zero
tests, printing) read the value `n / d`, not the representation. -/
structure Q where
  n : Int
  d : Nat
  dpos : 0 < d
  deriving Repr, DecidableEq

namespace Q

def ofInt (i : Int) : Q := ⟨i, 1, Nat.one_pos⟩

def zero : Q := ofInt 0

def add (a b : Q) : Q :=
  ⟨a.n * (b.d : Int) + b.n * (a.d : Int), a.d * b.d, Nat.mul_pos a.dpos b.dpos⟩

def neg (a : Q) : Q := ⟨-a.n, a.d, a.dpos⟩

def sub (a b : Q) : Q := add a (neg b)

def mulNat (a : Q) (k : Nat) : Q := ⟨a.n * (k : Int), a.d, a.dpos⟩

/-- Division by `10^k` (the only divisions performed by the source are by decimal
constants such as `1e5`). -/
def divPow10 (a : Q) (k : Nat) : Q :=
  ⟨a.n, a.d * 10 ^ k, Nat.mul_pos a.dpos (Nat.pos_pow_of_pos k (by decide))⟩

/-- Value-level order: `a.n / a.d ≤ b.n / b.d`, by cross multiplication. -/
def ble (a b : Q) : Bool := a.n * (b.d : Int) ≤ b.n * (a.d : Int)

def blt (a b : Q) : Bool := a.n * (b.d : Int) < b.n * (a.d : Int)

/-- Value-level zero test (the representation is not normalised). -/
def isZero (a : Q) : Bool := a.n = 0

def isNeg (a : Q) : Bool := a.n < 0

/-- Interpretation into Mathlib's rationals, used only inside proofs. -/
def toRat (a : Q) : Rat := (a.n : Rat) / (a.d : Rat)

end Q

/-- Model of a JavaScript runtime value.  JSON-parsed data uses the constructors
other than `nan`/`undef`; `nan` models the IEEE NaN produced by failed numeric
coercions, `undef` models `undefined` (absent properties). -/
inductive JVal where
  | num (q : Q)
  | nan
  | bool (b : Bool)
  | str (s : String)
  | null
  | undef
  | arr (xs : List JVal)
  | obj (fields : List (String × JVal))
  deriving Repr

namespace JVal

mutual

def beq : JVal → JVal → Bool
  | .num a, .num b => a == b
  | .nan, .nan => true
  | .bool a, .bool b => a == b
  | .str a, .str b => a == b
  | .null, .null => true
  | .undef, .undef => true
  | .arr xs, .arr ys => beqList xs ys
  | .obj fs, .obj gs => beqFields fs gs
  | _, _ => false

def beqList : List JVal → List JVal → Bool
  | [], [] => true
  | x :: xs, y :: ys => beq x y && beqList xs ys
  | _, _ => false

def beqFields : List (String × JVal) → List (String × JVal) → Bool
  | [], [] => true
  | (k, v) :: fs, (l, w) :: gs => k == l && beq v w && beqFields fs gs
  | _, _ => false

end

mutual

def eqOfBeq : ∀ {a b : JVal}, beq a b = true → a = b
  | .num _, .num _, h => by
    simp only [beq] at h
    exact congrArg JVal.num (beq_iff_eq.mp h)
  | .nan, .nan, _ => rfl
  | .bool _, .bool _, h => by
    simp only [beq] at h
    exact congrArg JVal.bool (beq_iff_eq.mp h)
  | .str _, .str _, h => by
    simp only [beq] at h
    exact congrArg JVal.str (beq_iff_eq.mp h)
  | .null, .null, _ => rfl
  | .undef, .undef, _ => rfl
  | .arr _, .arr _, h => by
    simp only [beq] at h
    exact congrArg JVal.arr (eqListOfBeq h)
  | .obj _, .obj _, h => by
    simp only [beq] at h
    exact congrArg JVal.obj (eqFieldsOfBeq h)

def eqListOfBeq : ∀ {xs ys : List JVal}, beqList xs ys = true → xs = ys
  | [], [], _ => rfl
  | x :: xs, y :: ys, h => by
    simp only [beqList, Bool.and_eq_true] at h
    rw [eqOfBeq h.1, eqListOfBeq h.2]

def eqFieldsOfBeq :
    ∀ {fs gs : List (String × JVal)}, beqFields fs gs = true → fs = gs
  | [], [], _ => rfl
  | (k, v) :: fs, (l, w) :: gs, h => by
    simp only [beqFields, Bool.and_eq_true] at h
    rw [eqOfBeq h.1.2, eqFieldsOfBeq h.2, beq_iff_eq.mp h.1.1]

end

mutual

def beq_refl : ∀ (a : JVal), beq a a = true
  | .num q => by simp [beq]
  | .nan => rfl
  | .bool b => by simp [beq]
  | .str s => by simp [beq]
  | .null => rfl
  | .undef => rfl
  | .arr xs => by simp only [beq]; exact beqList_refl xs
  | .obj fs => by simp only [beq]; exact beqFields_refl fs

def beqList_refl : ∀ (xs : List JVal), beqList xs xs = true
  | [] => rfl
  | x :: xs => by
    simp only [beqList, Bool.and_eq_true]
    exact ⟨beq_refl x, beqList_refl xs⟩

def beqFields_refl : ∀ (fs : List (String × JVal)), beqFields fs fs = true
  | [] => rfl
  | (k, v) :: fs => by
    simp only [beqFields, Bool.and_eq_true]
    exact ⟨⟨by simp, beq_refl v⟩, beqFields_refl fs⟩

end

instance : DecidableEq JVal := fun a b =>
  decidable_of_iff (beq a b = true) ⟨eqOfBeq, fun h => h ▸ beq_refl a⟩

end JVal

/-- Shorthand for the entry list of a row object (`Object.entries` order). -/
abbrev JRow := List (String × JVal)

-- character-list helpers

/-- Lexicographic code-point comparison of character lists.  This is the model
used for `String.prototype.localeCompare`: the real collation is ICU/locale
dependent; the spec only requires a deterministic locale string compare, which
this models as code-point order. -/
def strCmpL : List Char → List Char → Int
  | [], [] => 0
  | [], _ :: _ => -1
  | _ :: _, [] => 1
  | a :: as, b :: bs =>
    if a.toNat < b.toNat then -1
    else if b.toNat < a.toNat then 1
    else strCmpL as bs

def strCmp (s t : String) : Int := strCmpL s.data t.data

-- decimal rendering helpers (digit grouping, padding, trimming)

/-- Splits a reversed digit list into comma groups: `first` digits for the
rightmost group, `next` for every further group.  Fuel-based structural
recursion so concrete evaluation reduces in the kernel. -/
def groupChunksF : Nat → Nat → Nat → List Char → List (List Char)
  | 0, _, _, cs => [cs]
  | fuel + 1, first, next, cs =>
    if cs.length ≤ first ∨ first = 0 then [cs]
    else cs.take first :: groupChunksF fuel next next (cs.drop first)

/-- Inserts comma group separators into a digit string: `first` digits in the
rightmost group and `next` in each further group (Indian grouping is `3, 2`;
Western grouping is `3, 3`). -/
def groupDigits (first next : Nat) (s : String) : String :=
  let chunks := groupChunksF s.length first next s.data.reverse
  String.intercalate "," ((chunks.map (fun c => String.mk c.reverse)).reverse)

def padZeros (s : String) (k : Nat) : String :=
  String.mk (List.replicate (k - s.length) '0') ++ s

def trimZeros (s : String) : String :=
  String.mk (s.data.reverse.dropWhile (fun c => c = '0')).reverse

/-- Least `k ≤ 30` with `d ∣ 10^k * n`; every number arising in this program is
a terminating decimal, so the bound is never hit on reachable data. -/
def decExp (n d : Nat) : Option Nat :=
  (List.range 31).find? (fun k => (10 ^ k * n) % d = 0)

/-- Model of JS number-to-string conversion for the rationals used here:
integers print without a decimal point, terminating decimals print their
shortest fractional part; a non-decimal rational (unreachable from this
program's data) falls back to fraction notation. -/
def qToString (q : Q) : String :=
  let sign := if q.n < 0 then "-" else ""
  let na := q.n.natAbs
  if q.d = 1 then sign ++ toString na
  else
    match decExp na q.d with
    | some k =>
      let scaled := 10 ^ k * na / q.d
      let ip := scaled / 10 ^ k
      let fs := trimZeros (padZeros (toString (scaled % 10 ^ k)) k)
      sign ++ toString ip ++ (if fs = "" then "" else "." ++ fs)
    | none => sign ++ toString na ++ "/" ++ toString q.d

-- model of the external Number(string) coercion

def isWsChar (c : Char) : Bool := c = ' ' ∨ c = '\t' ∨ c = '\n' ∨ c = '\r'

def isDigitChar (c : Char) : Bool := 48 ≤ c.toNat ∧ c.toNat ≤ 57

def allDigits (cs : List Char) : Bool := cs.all isDigitChar

def digitsToNat (cs : List Char) : Nat :=
  cs.foldl (fun a c => a * 10 + (c.toNat - 48)) 0

/-- Builds `sgn * mantissa / 10^fracLen * 10^e` as a `Q`. -/
def mkDecQ (sgn : Int) (mant : Nat) (fracLen : Nat) (e : Int) : Q :=
  if 0 ≤ e then
    ⟨sgn * (mant : Int) * (10 : Int) ^ e.toNat, 10 ^ fracLen,
      Nat.pos_pow_of_pos fracLen (by decide)⟩
  else
    ⟨sgn * (mant : Int), 10 ^ (fracLen + (-e).toNat),
      Nat.pos_pow_of_pos _ (by decide)⟩

/-- Mantissa part: `digits`, `digits.`, `digits.digits` or `.digits`. -/
def parseMantissa (sgn : Int) (cs : List Char) (e : Int) : Option Q :=
  match cs.splitOn '.' with
  | [ip] =>
    if ip = [] ∨ allDigits ip = false then none
    else some (mkDecQ sgn (digitsToNat ip) 0 e)
  | [ip, fp] =>
    if (ip = [] ∧ fp = []) ∨ allDigits ip = false ∨ allDigits fp = false then none
    else some (mkDecQ sgn (digitsToNat ip * 10 ^ fp.length + digitsToNat fp) fp.length e)
  | _ => none

/-- Model of the external `Number(string)` coercion: optional surrounding
whitespace; the empty string coerces to `0`; otherwise an optional sign and a
decimal literal with optional fraction and exponent.  Exotic numeric forms
(hex, `Infinity`), which this program never feeds to it, coerce to NaN here. -/
def strToNumber (s : String) : Option Q :=
  let cs := ((s.data.dropWhile isWsChar).reverse.dropWhile isWsChar).reverse
  if cs = [] then some (Q.ofInt 0)
  else
    let (sgn, cs1) : Int × List Char :=
      match cs with
      | '-' :: t => (-1, t)
      | '+' :: t => (1, t)
      | t => (1, t)
    match (cs1.map Char.toLower).splitOn 'e' with
    | [mant] => parseMantissa sgn mant 0
    | [mant, ex] =>
      let (esgn, eds) : Int × List Char :=
        match ex with
        | '-' :: t => (-1, t)
        | '+' :: t => (1, t)
        | t => (1, t)
      if eds = [] ∨ allDigits eds = false then none
      else parseMantissa sgn mant (esgn * (digitsToNat eds : Int))
    | _ => none

-- JS value coercions

mutual

def jsToString : JVal → String
  | .num q => qToString q
  | .nan => "NaN"
  | .bool b => if b then "true" else "false"
  | .str s => s
  | .null => "null"
  | .undef => "undefined"
  | .arr xs => String.intercalate "," (jsToStringElems xs)
  | .obj _ => "[object Object]"

/-- Array.prototype.join (used by array-to-string coercion) renders null and
undefined elements as the empty string. -/
def jsToStringElems : List JVal → List String
  | [] => []
  | .null :: xs => "" :: jsToStringElems xs
  | .undef :: xs => "" :: jsToStringElems xs
  | x :: xs => jsToString x :: jsToStringElems xs

end

/-- Model of the JS `Number(v)` coercion (`none` is NaN). -/
def jsToNumber : JVal → Option Q
  | .num q => some q
  | .nan => none
  | .bool b => some (Q.ofInt (if b then 1 else 0))
  | .str s => strToNumber s
  | .null => some (Q.ofInt 0)
  | .undef => none
  | .arr xs => strToNumber (jsToString (.arr xs))
  | .obj _ => none

def jsTruthy : JVal → Bool
  | .num q => !(Q.isZero q)
  | .nan => false
  | .bool b => b
  | .str s => !(s == "")
  | .null => false
  | .undef => false
  | .arr _ => true
  | .obj _ => true

/-- ToPrimitive yields a string for string, array and plain-object operands. -/
def toPrimStr : JVal → Option String
  | .str s => some s
  | .arr xs => some (jsToString (.arr xs))
  | .obj fs => some (jsToString (.obj fs))
  | _ => none

/-- Model of the JS `+` operator on the value shapes that occur here: if either
operand is stringish the result is string concatenation, otherwise numeric
addition with NaN propagation. -/
def jsAdd (a b : JVal) : JVal :=
  match toPrimStr a, toPrimStr b with
  | some _, _ => .str (jsToString a ++ jsToString b)
  | _, some _ => .str (jsToString a ++ jsToString b)
  | none, none =>
    match jsToNumber a, jsToNumber b with
    | some x, some y => .num (Q.add x y)
    | _, _ => .nan

/-- Property read `v[k]`: objects yield the field value or `undefined`; other
non-nullish values yield `undefined` (no prototype property is relevant here);
reading a property of `null`/`undefined` throws. -/
def getMember (v : JVal) (k : String) : Except String JVal :=
  match v with
  | .null => .error ("TypeError: cannot read properties of null (reading " ++ k ++ ")")
  | .undef => .error ("TypeError: cannot read properties of undefined (reading " ++ k ++ ")")
  | .obj fs => .ok ((fs.lookup k).getD .undef)
  | _ => .ok JVal.undef

/-- Optional-chaining property read `v?.[k]`. -/
def getMemberOpt (v : JVal) (k : String) : JVal :=
  match v with
  | .null => .undef
  | .undef => .undef
  | .obj fs => (fs.lookup k).getD .undef
  | _ => .undef

mutual

/-- Model of the external deep-copy idiom `JSON.parse(JSON.stringify(v))`:
identity on JSON data; NaN serialises to `null`; `undefined` serialises to
`null` inside arrays and drops its field inside objects. -/
def jsonRoundTrip : JVal → JVal
  | .num q => .num q
  | .nan => .null
  | .bool b => .bool b
  | .str s => .str s
  | .null => .null
  | .undef => .null
  | .arr xs => .arr (jsonRoundTripList xs)
  | .obj fs => .obj (jsonRoundTripFields fs)

def jsonRoundTripList : List JVal → List JVal
  | [] => []
  | x :: xs => jsonRoundTrip x :: jsonRoundTripList xs

def jsonRoundTripFields : List (String × JVal) → List (String × JVal)
  | [] => []
  | (_, .undef) :: fs => jsonRoundTripFields fs
  | (k, v) :: fs => (k, jsonRoundTrip v) :: jsonRoundTripFields fs

end

namespace COL_TYPES

-- column-type constants and defaults (source: COL_TYPES, DEFAULTS)


def MONEY : String := "money"

def MONEY2 : String := "money_2"

def FLOAT : String := "float"

def FLOAT5 : String := "float_5"

def PERCENT : String := "%"

def PERCENT1 : String := "percent"

def DATE : String := "date"

def TEXT : String := "text"

end COL_TYPES

namespace DEFAULTS

def PRECISION : JVal := .num (Q.ofInt 0)

def CURRENCY : String := "INR"

def CSS_TYPE : String := "default"

end DEFAULTS

-- model of Intl.NumberFormat (external builtin)

def isAsciiLetter (c : Char) : Bool :=
  (65 ≤ c.toNat ∧ c.toNat ≤ 90) ∨ (97 ≤ c.toNat ∧ c.toNat ≤ 122)

/-- Model of `String.prototype.toUpperCase` (the program only upper-cases ASCII
currency codes). -/
def strUpper (s : String) : String := String.mk (s.data.map Char.toUpper)

/-- Model of `String.prototype.toLowerCase`. -/
def strLower (s : String) : String := String.mk (s.data.map Char.toLower)

/-- Intl accepts exactly three-letter currency codes; anything else raises a
RangeError in both the narrow-symbol attempt and the fallback. -/
def validCurrencyCode (s : String) : Bool :=
  s.length = 3 && s.data.all isAsciiLetter

/-- Narrow currency symbols for the codes this program's data uses; other valid
codes display as the code itself (host dependent, unreachable in the theorems
below). -/
def narrowSymbol (cur : String) : String :=
  if cur = "INR" then "₹" else if cur = "USD" then "$" else cur ++ " "

/-- Fraction-digit options must be integers in `0..100`, else Intl (and
`toFixed`) raise a RangeError. -/
def jsPrecision (p : JVal) : Option Nat :=
  match jsToNumber p with
  | some q =>
    if q.n % (q.d : Int) = 0 ∧ 0 ≤ q.n ∧ q.n / (q.d : Int) ≤ 100 then
      some (q.n / (q.d : Int)).toNat
    else none
  | none => none

/-- `⌊|q| * 10^p + 1/2⌋` as a natural number: rounding half away from zero on
the absolute value, the default Intl/toFixed rounding. -/
def roundedScaled (q : Q) (p : Nat) : Nat :=
  (q.n.natAbs * 10 ^ p * 2 + q.d) / (2 * q.d)

def fixedParts (q : Q) (p : Nat) : Nat × String :=
  let n0 := roundedScaled q p
  (n0 / 10 ^ p, padZeros (toString (n0 % 10 ^ p)) p)

/-- Modelled from the documented behaviour of `Intl.NumberFormat(undefined,
currency options)`: the host default locale is taken to be en-IN (the spec's
examples use Indian digit grouping), giving sign, narrow symbol, Indian-grouped
integer digits and `p` fraction digits. -/
def intlCurrency (v : Option Q) (p : Nat) (cur : String) : String :=
  match v with
  | none => narrowSymbol cur ++ "NaN"
  | some q =>
    let parts := fixedParts q p
    (if Q.isNeg q then "-" else "") ++ narrowSymbol cur ++
      groupDigits 3 2 (toString parts.1) ++ (if p = 0 then "" else "." ++ parts.2)

/-- Modelled from the documented behaviour of `toLocaleString('en-US', ...)`:
Western digit grouping with `p` fraction digits. -/
def intlNumberEnUS (v : Option Q) (p : Nat) : String :=
  match v with
  | none => "NaN"
  | some q =>
    let parts := fixedParts q p
    (if Q.isNeg q then "-" else "") ++ groupDigits 3 3 (toString parts.1) ++
      (if p = 0 then "" else "." ++ parts.2)

/-- `Number.prototype.toFixed`: fixed-point, no grouping. -/
def toFixedStr (q : Q) (p : Nat) : String :=
  let parts := fixedParts q p
  (if Q.isNeg q then "-" else "") ++ toString parts.1 ++
    (if p = 0 then "" else "." ++ parts.2)

namespace Formatter

/-- Embeds `Formatter.#formatCurrency`: uppercases the currency code and
formats via the Intl model; `none` models the case where both the narrow-symbol
attempt and the retry throw (non-string currency, invalid code, or out-of-range
precision), which the source does not catch. -/
def formatCurrency (amount precision currency : JVal) : Option String :=
  match currency with
  | .str c =>
    let cur := strUpper c
    if validCurrencyCode cur = false then none
    else
      match jsPrecision precision with
      | none => none
      | some p => some (intlCurrency (jsToNumber amount) p cur)
  | _ => none

/-- Embeds `Formatter.formatMoney`; the source's default arguments
(`DEFAULTS.PRECISION`, `DEFAULTS.CURRENCY`) are supplied explicitly at call
sites below. -/
def formatMoney (amount precision currency : JVal) : Option String :=
  formatCurrency amount precision currency

/-- `arr[Math.min(idx, arr.length - 1)]` — the index clamp used by
`formatMoney2`; out of an empty array it reads `undefined`. -/
def clampGet (l : List JVal) (i : Nat) : JVal :=
  match l with
  | [] => .undef
  | _ => l.getD (min i (l.length - 1)) .undef

def formatMoney2Aux (precisions currencies : List JVal) (idx : Nat) :
    List JVal → Option (List String)
  | [] => some []
  | amt :: rest => do
    let s ← formatMoney amt (clampGet precisions idx) (clampGet currencies idx)
    let t ← formatMoney2Aux precisions currencies (idx + 1) rest
    pure (s :: t)

/-- Embeds `Formatter.formatMoney2`: maps `formatMoney` over the amounts with
the precision/currency at the clamped index and joins with `<br>`. -/
def formatMoney2 (amounts precisions currencies : List JVal) : Option String :=
  (formatMoney2Aux precisions currencies 0 amounts).map (String.intercalate "<br>")

/-- Embeds `Formatter.formatNumber`. -/
def formatNumber (val precision : JVal) : Option String :=
  match jsPrecision precision with
  | none => none
  | some p => some (intlNumberEnUS (jsToNumber val) p)

/-- Embeds `Formatter.formatPercent`: `(val * 100).toFixed(precision) + '%'`. -/
def formatPercent (val precision : JVal) : Option String :=
  match jsPrecision precision with
  | none => none
  | some p =>
    some ((match jsToNumber val with
      | some q => toFixedStr (Q.mulNat q 100) p
      | none => "NaN") ++ "%")

/-- Modelled from the spec: `formatDate` delegates to the external `Date`
builtin ("parses to a date; invalid input formats as empty string; valid input
formats as `YYYY-MM-DD`").  The model accepts ISO `YYYY-MM-DD` strings, which
round-trip to themselves, and treats other inputs as invalid dates, which the
source renders as the empty string.  No claim below exercises date columns. -/
def isIsoDate (s : String) : Bool :=
  match s.data with
  | [y1, y2, y3, y4, '-', m1, m2, '-', d1, d2] =>
    allDigits [y1, y2, y3, y4] && allDigits [m1, m2] && allDigits [d1, d2] &&
      1 ≤ digitsToNat [m1, m2] && digitsToNat [m1, m2] ≤ 12 &&
      1 ≤ digitsToNat [d1, d2] && digitsToNat [d1, d2] ≤ 31
  | _ => false

def formatDate (val : JVal) : String :=
  match val with
  | .str s => if isIsoDate s then s else ""
  | _ => ""

end Formatter

-- table data model (caller-supplied table specification)

/-- Reserved detail keys skipped by cell derivation
(`_DETAILS_TABLE_`, `_DETAILS_OTHER_`). -/
def RESERVED_KEYS : List String := ["_DETAILS_TABLE_", "_DETAILS_OTHER_"]

/-- Column descriptor: the fields of `df.cols[col]` the source reads.  Absent
JS properties are `none`. -/
structure ColInfo where
  type : Option JVal
  precision : Option JVal
  currency : Option JVal
  displayName : Option JVal
  showCol : Option JVal
  aggregate : Option JVal
  deriving Repr, DecidableEq

def ColInfo.empty : ColInfo := ⟨none, none, none, none, none, none⟩

/-- Table specification: column-descriptor map (entry order) plus rows. -/
structure DF where
  cols : List (String × ColInfo)
  rows : List JRow
  deriving Repr, DecidableEq

/-- `raw / 1e5`-style division used by the `float_5` column type. -/
def jsDivPow10 (v : JVal) (k : Nat) : JVal :=
  match jsToNumber v with
  | some q => .num (q.divPow10 k)
  | none => .nan

/-- Structural effectful map over `Option` (left-to-right, stopping at the
first failure, like a JS loop that throws). -/
def optMapM {α β : Type} (f : α → Option β) : List α → Option (List β)
  | [] => some []
  | a :: as => do
    let b ← f a
    let bs ← optMapM f as
    pure (b :: bs)

/-- Structural effectful map over `Except` (left-to-right, stopping at the
first failure, like a JS loop that throws). -/
def excMapM {ε α β : Type} (f : α → Except ε β) : List α → Except ε (List β)
  | [] => .ok []
  | a :: as => do
    let b ← f a
    let bs ← excMapM f as
    pure (b :: bs)

/-- Structural effectful left fold over `Except`. -/
def excFoldlM {ε α σ : Type} (f : σ → α → Except ε σ) : σ → List α → Except ε σ
  | s, [] => .ok s
  | s, a :: as => do
    let s2 ← f s a
    excFoldlM f s2 as

namespace TableMaker

def cellObj (t value disp : JVal) : JVal :=
  .obj [("type", t), ("value", value), ("disp", disp)]

/-- Embeds the per-entry body of `TableMaker.createCellDisplayValues`: the
`{type, value, disp}` cell computed for one non-reserved column entry.  `none`
models an uncaught formatter exception (only reachable with malformed column
descriptors).  The JS `switch (type)` compares the raw `type` property against
the `COL_TYPES` string constants with strict equality, falling through to the
default branch (`disp = raw`) for every other value. -/
def deriveCellVal (cols : List (String × ColInfo)) (col : String) (raw : JVal) :
    Option JVal :=
  let colInfo := (cols.lookup col).getD ColInfo.empty
  let type := colInfo.type.getD (.str COL_TYPES.TEXT)
  let precision := colInfo.precision.getD DEFAULTS.PRECISION
  if type = .str COL_TYPES.MONEY2 then
    let currencies :=
      match colInfo.currency with
      | some (.arr cs) => cs
      | _ => [.str DEFAULTS.CURRENCY]
    let precisions :=
      match colInfo.precision with
      | some (.arr ps) => ps
      | _ => [precision]
    let amounts :=
      match raw with
      | .arr xs => xs
      | _ => []
    (Formatter.formatMoney2 amounts precisions currencies).map
      (fun d => cellObj type raw (.str d))
  else if type = .str COL_TYPES.MONEY then
    (Formatter.formatMoney raw precision (.str DEFAULTS.CURRENCY)).map
      (fun d => cellObj type raw (.str d))
  else if type = .str COL_TYPES.FLOAT then
    (Formatter.formatNumber raw precision).map
      (fun d => cellObj type raw (.str d))
  else if type = .str COL_TYPES.FLOAT5 then
    (Formatter.formatNumber (jsDivPow10 raw 5) precision).map
      (fun d => cellObj type raw (.str d))
  else if type = .str COL_TYPES.PERCENT ∨ type = .str COL_TYPES.PERCENT1 then
    (Formatter.formatPercent raw precision).map
      (fun d => cellObj type raw (.str d))
  else if type = .str COL_TYPES.DATE then
    some (cellObj type raw (.str (Formatter.formatDate raw)))
  else
    some (cellObj type raw raw)

/-- One row of `createCellDisplayValues`: every entry except the two reserved
detail keys is replaced in place by its display cell. -/
def deriveRow (cols : List (String × ColInfo)) (row : JRow) : Option JRow :=
  optMapM (fun e =>
    if e.1 ∈ RESERVED_KEYS then some e
    else (deriveCellVal cols e.1 e.2).map (fun c => (e.1, c))) row

/-- Embeds `TableMaker.createCellDisplayValues` (spec name
`deriveDisplayCells`): maps `deriveRow` over the rows and keeps the column map
unchanged (`{...df, rows}`). -/
def createCellDisplayValues (df : DF) : Option DF :=
  (optMapM (deriveRow df.cols) df.rows).map (fun rows => ⟨df.cols, rows⟩)

end TableMaker

-- aggregate computation (source: #createAggregateColumnArray, calcGroupAggregates)

instance {ε α : Type} [DecidableEq ε] [DecidableEq α] : DecidableEq (Except ε α) := fun a b =>
  match a, b with
  | .ok x, .ok y =>
    if h : x = y then .isTrue (by rw [h]) else .isFalse (by simp [h])
  | .ok _, .error _ => .isFalse (by simp)
  | .error _, .ok _ => .isFalse (by simp)
  | .error e, .error f =>
    if h : e = f then .isTrue (by rw [h]) else .isFalse (by simp [h])

/-- Aggregate-column record built by `#createAggregateColumnArray`
(`{col, type, precision, aggregate}`).  The builder never sets `currency`, so
`calcGroupAggregates` reading `colInfo.currency` sees `undefined` (`none`) on
builder-made records. -/
structure AggCol where
  col : String
  type : Option JVal
  precision : Option JVal
  currency : Option JVal
  aggregate : JVal
  deriving Repr, DecidableEq

def addOptQ : Option Q → Option Q → Option Q
  | some a, some b => some (Q.add a b)
  | _, _ => none

def optQToJVal : Option Q → JVal
  | some q => .num q
  | none => .nan

/-- Element-wise array-sum step `arr.value.forEach((num, i) => acc[i] =
(acc[i] ?? 0) + Number(num))`: missing accumulator slots start at `0`, NaN
propagates, and accumulator slots beyond the current array stay untouched. -/
def mergeElemwise : List (Option Q) → List (Option Q) → List (Option Q)
  | acc, [] => acc
  | [], n :: ns => addOptQ (some Q.zero) n :: mergeElemwise [] ns
  | a :: as, n :: ns => addOptQ a n :: mergeElemwise as ns

namespace TableMakerComponent

/-- Embeds `#createAggregateColumnArray`: resolves the aggregate map (explicit
`style.aggregateCols` if supplied, else collected from `cols[*].aggregate`),
drops entries whose column key no longer exists in `cols`, and snapshots the
column's type and precision with their defaults applied. -/
def createAggregateColumnArray (cols : List (String × ColInfo))
    (aggregateCols : Option (List (String × JVal))) : List AggCol :=
  let aggMap : List (String × JVal) :=
    match aggregateCols with
    | some m => m
    | none => cols.filterMap (fun e => e.2.aggregate.map (fun a => (e.1, a)))
  (aggMap.filter (fun e => (cols.lookup e.1).isSome)).map (fun e =>
    let ci := (cols.lookup e.1).getD ColInfo.empty
    ⟨e.1, some (ci.type.getD (.str COL_TYPES.TEXT)),
      some (ci.precision.getD DEFAULTS.PRECISION), none, e.2⟩)

/-- The inner-array read of the `money_2` sum branch, `arr[col].value`, followed
by `.forEach`: throws when the row misses the column (property read on
`undefined`) or when the cell's raw value is not an array (`forEach` is not a
function). -/
def money2RowArray (col : String) (row : JRow) : Except String (List JVal) := do
  let cell := (row.lookup col).getD .undef
  let v ← getMember cell "value"
  match v with
  | .arr nums => .ok nums
  | _ => .error "TypeError: arr[col].value.forEach is not a function"

/-- The `money_2` branch of the `sum` aggregation: element-wise sum of the
per-row arrays. -/
def calcMoney2Sum (col : String) (rows : List JRow) :
    Except String (List (Option Q)) :=
  excFoldlM
    (fun acc row => do
      let nums ← money2RowArray col row
      pure (mergeElemwise acc (nums.map jsToNumber)))
    [] rows

def getFieldPlain (v : JVal) (k : String) : JVal :=
  match v with
  | .obj fs => (fs.lookup k).getD .undef
  | _ => JVal.undef

/-- One step of the generic `sum` branch:
`acc + (r[col] ? r[col].value : 0)`. -/
def sumStep (col : String) (acc : JVal) (row : JRow) : JVal :=
  let c := (row.lookup col).getD .undef
  jsAdd acc (if jsTruthy c then getFieldPlain c "value" else .num Q.zero)

def calcSum (col : String) (rows : List JRow) : JVal :=
  rows.foldl (sumStep col) (.num Q.zero)

/-- Lifts a formatter result; `none` becomes the uncaught RangeError. -/
def liftFmt : Option String → Except String String
  | some s => .ok s
  | none => .error "RangeError: Intl.NumberFormat option out of range"

/-- Embeds the loop body of `TableMakerComponent.calcGroupAggregates` for one
aggregate column: computes `aggVal` (the `sum` rule, or the literal aggregate
passed through) and then the display string keyed by the column type.  Returns
`(col, value, disp)`. -/
def calcOneAggregate (colInfo : AggCol) (rows : List JRow) :
    Except String (String × JVal × JVal) := do
  let col := colInfo.col
  let colType := colInfo.type.getD (.str COL_TYPES.TEXT)
  let precision := colInfo.precision.getD DEFAULTS.PRECISION
  let aggVal : JVal ←
    if colInfo.aggregate = .str "sum" then
      if colType = .str COL_TYPES.MONEY2 then do
        let acc ← calcMoney2Sum col rows
        pure (.arr (acc.map optQToJVal))
      else
        pure (calcSum col rows)
    else
      pure colInfo.aggregate
  if colType = .str COL_TYPES.MONEY then do
    let d ← liftFmt (Formatter.formatMoney aggVal precision (.str DEFAULTS.CURRENCY))
    pure (col, aggVal, .str d)
  else if colType = .str COL_TYPES.MONEY2 then
    let currencies :=
      match colInfo.currency with
      | some (.arr cs) => cs
      | _ => [.str DEFAULTS.CURRENCY]
    let precisions :=
      match colInfo.precision with
      | some (.arr ps) => ps
      | _ => [precision]
    let aggVal2 :=
      match aggVal with
      | .arr xs => JVal.arr xs
      | _ => JVal.arr []
    let amounts :=
      match aggVal2 with
      | .arr xs => xs
      | _ => []
    do
      let d ← liftFmt (Formatter.formatMoney2 amounts precisions currencies)
      pure (col, aggVal2, .str d)
  else if colType = .str COL_TYPES.FLOAT then do
    let d ← liftFmt (Formatter.formatNumber aggVal precision)
    pure (col, aggVal, .str d)
  else if colType = .str COL_TYPES.FLOAT5 then do
    let d ← liftFmt (Formatter.formatNumber (jsDivPow10 aggVal 5) precision)
    pure (col, aggVal, .str d)
  else if colType = .str COL_TYPES.PERCENT ∨ colType = .str COL_TYPES.PERCENT1 then do
    let d ← liftFmt (Formatter.formatPercent aggVal precision)
    pure (col, aggVal, .str d)
  else
    pure (col, aggVal, aggVal)

/-- Embeds the static method `TableMakerComponent.calcGroupAggregates`: one
`(col, {value, disp})` result per aggregate column, in declaration order. -/
def calcGroupAggregates (aggregateCols : List AggCol) (rows : List JRow) :
    Except String (List (String × JVal × JVal)) :=
  excMapM (fun c => calcOneAggregate c rows) aggregateCols

end TableMakerComponent

-- concrete inputs used by counterexamples and witnesses

def sampleTextDf : DF := ⟨[("month", ColInfo.empty)], [[("month", .str "Jan")]]⟩

def sampleTextCell : JVal := TableMaker.cellObj (.str "text") (.str "Jan") (.str "Jan")

def sampleTextDf1 : DF := ⟨[("month", ColInfo.empty)], [[("month", sampleTextCell)]]⟩

def sampleTextDf2 : DF :=
  ⟨[("month", ColInfo.empty)],
    [[("month", TableMaker.cellObj (.str "text") sampleTextCell sampleTextCell)]]⟩

/-- The `disp` value of row `i`, column `col` of a (possibly failed) derived
table. -/
def dispAt (d : Option DF) (i : Nat) (col : String) : Option JVal :=
  d.bind (fun df => ((df.rows.getD i []).lookup col).map (fun c => getMemberOpt c "disp"))

def sampleMoneyCols : List (String × ColInfo) :=
  [("revenue", ⟨some (.str "money"), some (.num (Q.ofInt 0)), some (.str "USD"),
    none, none, none⟩)]

def sampleMoneyCols2 : List (String × ColInfo) :=
  [("revenue", ⟨some (.str "money"), some (.num (Q.ofInt 0)), some (.str "EUR"),
    none, none, none⟩)]

def sampleMoneyAggCol : AggCol :=
  ⟨"revenue", some (.str "money"), some (.num (Q.ofInt 0)), some (.str "USD"),
    .str "sum"⟩

def sampleMoneyRows : List JRow :=
  [[("revenue", TableMaker.cellObj (.str "money") (.num (Q.ofInt 120000)) (.str "a"))],
   [("revenue", TableMaker.cellObj (.str "money") (.num (Q.ofInt 145000)) (.str "b"))]]

-- model of Array.prototype.sort (external builtin): ECMAScript requires a
-- stable sort whose output is sorted whenever the comparator is consistent;
-- modelled as the stable insertion sort over the boolean relation
-- "comparator(a, b) <= 0"

def jsInsert {α : Type} (le : α → α → Bool) (a : α) : List α → List α
  | [] => [a]
  | b :: l => if le a b then a :: b :: l else b :: jsInsert le a l

def jsSortL {α : Type} (le : α → α → Bool) : List α → List α
  | [] => []
  | a :: l => jsInsert le a (jsSortL le l)

-- model of #sortBy (normalisation, comparator, in-place stable sort)

/-- Normalised sort key produced by `#sortBy`'s `normalize`: a number, the
`-Infinity` used for invalid dates, or a string. -/
inductive NormVal where
  | numv (q : Q)
  | ninf
  | strv (s : String)
  deriving Repr, DecidableEq

/-- Comparable line for the numeric branch of the comparator
(`-Infinity` below every finite value). -/
inductive NumOrd where
  | ninfty
  | fin (q : Q)
  deriving Repr, DecidableEq

def numOrdLt : NumOrd → NumOrd → Bool
  | .ninfty, .ninfty => false
  | .ninfty, .fin _ => true
  | .fin _, .ninfty => false
  | .fin a, .fin b => Q.blt a b

/-- The number a `NormVal` contributes to a relational (`<`/`>`) comparison:
strings go through the `Number` coercion (`none` is NaN). -/
def normNumVal : NormVal → Option NumOrd
  | .numv q => some (.fin q)
  | .ninf => some .ninfty
  | .strv s => (strToNumber s).map .fin

namespace TableMakerComponent

/-- Modelled from the spec: the external `Date` parse used by `#sortBy` for
`date` columns — numbers are timestamps, ISO `YYYY-MM-DD` strings map to an
order-faithful ordinal, everything else is an invalid date.  No claim below
exercises date sorting. -/
def dateOrdinal (s : String) : Int :=
  match s.data with
  | [y1, y2, y3, y4, _, m1, m2, _, d1, d2] =>
    ((digitsToNat [y1, y2, y3, y4] * 10000 + digitsToNat [m1, m2] * 100 +
      digitsToNat [d1, d2] : Nat) : Int)
  | _ => 0

def dateNormalize (v : JVal) : Option Q :=
  match v with
  | .num q => some q
  | .str s => if Formatter.isIsoDate s then some (Q.ofInt (dateOrdinal s)) else none
  | _ => none

/-- The generic (non-`money_2`-array) part of `#sortBy`'s `normalize`:
dates become timestamps or `-Infinity`; then `Number(v)` if not NaN; then
`null`/`undefined` become the empty string, everything else `String(v)`. -/
def normGeneric (typeStr : String) (v : Option JVal) : NormVal :=
  if typeStr = COL_TYPES.DATE then
    match v with
    | some w =>
      match dateNormalize w with
      | some t => .numv t
      | none => .ninf
    | none => .ninf
  else
    match v with
    | none => .strv ""
    | some w =>
      match jsToNumber w with
      | some q => .numv q
      | none =>
        match w with
        | .null => .strv ""
        | _ => .strv (jsToString w)

/-- Embeds `#sortBy`'s `normalize` closure (`v` is the raw cell value,
`none` when the row misses the column). -/
def normalizeForSort (typeStr : String) (v : Option JVal) : NormVal :=
  match v with
  | some (.arr xs) =>
    if typeStr = COL_TYPES.MONEY2 then
      match xs with
      | [] => .numv Q.zero
      | x :: _ => .numv ((jsToNumber x).getD Q.zero)
    else normGeneric typeStr (some (.arr xs))
  | _ => normGeneric typeStr v

/-- The relational branch `na < nb ? -1 : na > nb ? 1 : 0` on coerced numbers:
`0` whenever either side is NaN (comparisons with NaN are false). -/
def cmpNumOpt : Option NumOrd → Option NumOrd → Int
  | some x, some y => if numOrdLt x y then -1 else if numOrdLt y x then 1 else 0
  | _, _ => 0

/-- Embeds `#sortBy`'s comparator on normalised values: both strings use
`localeCompare` (modelled by `strCmp`); otherwise the `<`/`>` relational
comparison, which coerces a string operand to a number. -/
def cmpNorm (a b : NormVal) : Int :=
  match a, b with
  | .strv s, .strv t => strCmp s t
  | _, _ => cmpNumOpt (normNumVal a) (normNumVal b)

def sortByComparator (typeStr : String) (columnKey : String) (a b : JRow) : Int :=
  cmpNorm (normalizeForSort typeStr (a.lookup columnKey))
    (normalizeForSort typeStr (b.lookup columnKey))

/-- `(colDef.type ?? '').toString().toLowerCase()`. -/
def sortTypeStr (df : DF) (columnKey : String) : String :=
  strLower (jsToString (((df.cols.lookup columnKey).getD ColInfo.empty).type.getD
    (.str "")))

/-- Sort state `{colName, sortAsc}` owned by the component. -/
structure SortedColumn where
  colName : Option String
  sortAsc : Bool
  deriving Repr, DecidableEq

/-- The component state touched by sorting. -/
structure TState where
  tableData : DF
  sortedColumn : SortedColumn
  deriving Repr, DecidableEq

/-- Embeds `#sortBy`: sorts `#tableData.rows` in place with the comparator
(negated when descending) and records the sort state.  The trailing
`#render()` touches only the shadow DOM, not the data. -/
def sortBy (st : TState) (columnKey : String) (asc : Bool) : TState :=
  let typeStr := sortTypeStr st.tableData columnKey
  ⟨⟨st.tableData.cols,
    jsSortL
      (fun a b =>
        (if asc then sortByComparator typeStr columnKey a b
         else -sortByComparator typeStr columnKey a b) ≤ 0)
      st.tableData.rows⟩,
    ⟨some columnKey, asc⟩⟩

/-- Embeds the delegated header-click handler: a click on a header cell flips
the direction when the column is already the active sort column, else sorts
ascending. -/
def headerClickSort (st : TState) (col : String) : TState :=
  let newAsc :=
    if st.sortedColumn.colName = some col then !st.sortedColumn.sortAsc else true
  sortBy st col newAsc

end TableMakerComponent

/-- The comparator `#sortBy` derives for a column of a given table. -/
def rowCmp (df : DF) (col : String) (a b : JRow) : Int :=
  TableMakerComponent.sortByComparator (TableMakerComponent.sortTypeStr df col) col a b

/-- The normalised sort key of a row for a given table and column. -/
def normKey (df : DF) (col : String) (r : JRow) : NormVal :=
  TableMakerComponent.normalizeForSort (TableMakerComponent.sortTypeStr df col)
    (r.lookup col)

/-- C4 counterexample: with two rows tying on the sort column, the stable sort
leaves both directions in original order, so sorting descending is not the
reverse of sorting ascending. -/
def sampleTieState : TableMakerComponent.TState :=
  ⟨⟨[("x", ColInfo.empty)],
    [[("x", .num (Q.ofInt 1)), ("y", .str "a")],
     [("x", .num (Q.ofInt 1)), ("y", .str "b")]]⟩, ⟨none, true⟩⟩

def sampleNumState : TableMakerComponent.TState :=
  ⟨⟨[("x", ColInfo.empty)],
    [[("x", .num (Q.ofInt 2))], [("x", .num (Q.ofInt 1))]]⟩, ⟨none, true⟩⟩

-- model of #buildBody's grouping pipeline (steps a-c) and Object.groupBy

/-- Sign of a `Q` value (the sort engine consumes comparator results only
through their sign). -/
def qSign (q : Q) : Int := if q.n < 0 then -1 else if 0 < q.n then 1 else 0

def jsNumberTyped : JVal → Bool
  | .num _ => true
  | .nan => true
  | _ => false

namespace TableMakerComponent

/-- Normalises one `group_by` entry to `(columnName, isDescending)`: a
`[col, dir]` pair is descending when `dir.toLowerCase() === 'desc'`, a bare
entry sorts ascending.  A non-string column entry is used as a property key,
which JS coerces with `String(...)` at each access; the model applies that
coercion once here. -/
def normalizeGroupEntry (e : JVal) : String × Bool :=
  match e with
  | .arr es =>
    (jsToString (es.getD 0 .undef),
      match es.getD 1 .undef with
      | .str d => strLower d == "desc"
      | _ => false)
  | v => (jsToString v, false)

/-- `a[col]?.value` on a prepared row. -/
def cellValRaw (row : JRow) (col : String) : JVal :=
  match row.lookup col with
  | some c => getMemberOpt c "value"
  | none => JVal.undef

/-- `a[col]?.value ?? ''`. -/
def cellValOrEmpty (row : JRow) (col : String) : JVal :=
  match cellValRaw row col with
  | .undef => .str ""
  | .null => .str ""
  | v => v

/-- One level of the grouping comparator: `av - bv` when both operands have JS
type number (`none` models a NaN result, which makes the whole comparator
return NaN and the sort engine treat it as 0), else
`String(av).localeCompare(String(bv))` (modelled by `strCmp`). -/
def groupLevelRaw (col : String) (a b : JRow) : Option Int :=
  match cellValOrEmpty a col, cellValOrEmpty b col with
  | .num x, .num y => some (qSign (Q.sub x y))
  | .nan, .num _ => none
  | .num _, .nan => none
  | .nan, .nan => none
  | x, y => some (strCmp (jsToString x) (jsToString y))

/-- Embeds the multi-level grouping comparator of `#buildBody` step (b): first
non-zero level decides, negated for a `desc` level. -/
def groupMultiCmp : List (String × Bool) → JRow → JRow → Int
  | [], _, _ => 0
  | (col, isDesc) :: rest, a, b =>
    match groupLevelRaw col a b with
    | none => 0
    | some c => if c ≠ 0 then (if isDesc then -c else c) else groupMultiCmp rest a b

/-- The composite group key of step (c):
`groupColNames.map(col => row[col]?.value).join('|')` (array join renders
null/undefined as the empty string). -/
def groupKeyOf (names : List String) (row : JRow) : String :=
  String.intercalate "|" (names.map (fun c =>
    match cellValRaw row c with
    | .undef => ""
    | .null => ""
    | v => jsToString v))

end TableMakerComponent

def firstOccs : List String → List String
  | [] => []
  | k :: ks => k :: (firstOccs ks).filter (fun x => x ≠ k)

/-- Model of the external `Object.groupBy`: keys in first-occurrence order,
each group holding exactly the input elements with that key, in input order. -/
def jsGroupBy {α : Type} (key : α → String) (l : List α) : List (String × List α) :=
  (firstOccs (l.map key)).map (fun k => (k, l.filter (fun a => key a = k)))

namespace TableMakerComponent

/-- Embeds steps (a)-(c) of `#buildBody`'s grouping path: normalise the
`group_by` spec, stable-sort the prepared rows with the multi-level comparator
and partition them with `Object.groupBy` on the composite key.  Returns the
sorted rows and the ordered groups; step (d) renders each group in this
order. -/
def buildBodyGrouping (group_by : List JVal) (rows : List JRow) :
    List JRow × List (String × List JRow) :=
  let levels := group_by.map normalizeGroupEntry
  let names := levels.map Prod.fst
  let sortedRows := jsSortL (fun a b => groupMultiCmp levels a b ≤ 0) rows
  (sortedRows, jsGroupBy (groupKeyOf names) sortedRows)

end TableMakerComponent

/-- Numeric reading of a prepared cell's raw value (0 for non-numbers), used
to state the subtotal-sum property. -/
def cellRatValue (row : JRow) (col : String) : Rat :=
  match TableMakerComponent.cellValRaw row col with
  | .num q => Q.toRat q
  | _ => 0

/-- Homogeneity of one group-by column over a row set: either every row's raw
cell value at that column has JS type number and is not NaN, or none does (so
every pairwise comparison at that level takes the same branch of the grouping
comparator). -/
def homogCol (rows : List JRow) (col : String) : Prop :=
  (∀ r ∈ rows, ∃ q, TableMakerComponent.cellValOrEmpty r col = .num q) ∨
  (∀ r ∈ rows, jsNumberTyped (TableMakerComponent.cellValOrEmpty r col) = false)

def sampleC5GroupBy : List JVal := [.str "dept"]

def sampleC5Rows : List JRow :=
  [[("dept", TableMaker.cellObj (.str "text") (.str "b") (.str "b")),
    ("pay", TableMaker.cellObj (.str "money") (.num (Q.ofInt 100)) (.str "d1"))],
   [("dept", TableMaker.cellObj (.str "text") (.str "a") (.str "a")),
    ("pay", TableMaker.cellObj (.str "money") (.num (Q.ofInt 25)) (.str "d2"))],
   [("dept", TableMaker.cellObj (.str "text") (.str "b") (.str "b")),
    ("pay", TableMaker.cellObj (.str "money") (.num (Q.ofInt 7)) (.str "d3"))]]

-- model of JSON.parse (external builtin) and the data/style-config setters

/-- JSON whitespace skipping (space, tab, line feed, carriage return). -/
def skipWs : List Char → List Char
  | [] => []
  | c :: cs => if isWsChar c then skipWs cs else c :: cs

def hexVal (c : Char) : Option Nat :=
  if 48 ≤ c.toNat ∧ c.toNat ≤ 57 then some (c.toNat - 48)
  else if 97 ≤ c.toNat ∧ c.toNat ≤ 102 then some (c.toNat - 87)
  else if 65 ≤ c.toNat ∧ c.toNat ≤ 70 then some (c.toNat - 55)
  else none

def parseHex4 : List Char → Option (Nat × List Char)
  | a :: b :: c :: d :: rest =>
    match hexVal a, hexVal b, hexVal c, hexVal d with
    | some ha, some hb, some hc, some hd =>
      some (((ha * 16 + hb) * 16 + hc) * 16 + hd, rest)
    | _, _, _, _ => none
  | _ => none

/-- Longest digit prefix and the remainder. -/
def parseDigits : List Char → List Char × List Char
  | [] => ([], [])
  | c :: cs =>
    if isDigitChar c then
      let p := parseDigits cs
      (c :: p.1, p.2)
    else ([], c :: cs)

/-- JSON number grammar: optional minus, integer part without a redundant
leading zero, optional fraction with at least one digit, optional exponent
with at least one digit.  Reuses the exact decimal constructor `mkDecQ`. -/
def parseJNum (cs : List Char) : Option (Q × List Char) :=
  let sgnSplit : Int × List Char :=
    match cs with
    | '-' :: r => (-1, r)
    | _ => (1, cs)
  let ipr := parseDigits sgnSplit.2
  if ipr.1 = [] then none
  else if 1 < ipr.1.length ∧ ipr.1.headD '0' = '0' then none
  else
    let fracStep : Option (List Char × List Char) :=
      match ipr.2 with
      | '.' :: r =>
        let fpr := parseDigits r
        if fpr.1 = [] then none else some (fpr.1, fpr.2)
      | r => some ([], r)
    match fracStep with
    | none => none
    | some (fp, r2) =>
      let expStep : Option (Int × List Char) :=
        match r2 with
        | c :: r3 =>
          if c = 'e' ∨ c = 'E' then
            let esgnSplit : Int × List Char :=
              match r3 with
              | '+' :: r4 => (1, r4)
              | '-' :: r4 => (-1, r4)
              | _ => (1, r3)
            let edr := parseDigits esgnSplit.2
            if edr.1 = [] then none
            else some (esgnSplit.1 * (digitsToNat edr.1 : Int), edr.2)
          else some (0, c :: r3)
        | [] => some (0, [])
      match expStep with
      | none => none
      | some (e, r4) =>
        some (mkDecQ sgnSplit.1
          (digitsToNat ipr.1 * 10 ^ fp.length + digitsToNat fp) fp.length e, r4)

/-- Removes every entry with the given key. -/
def removeField : List (String × JVal) → String → List (String × JVal)
  | [], _ => []
  | (k2, v2) :: fs, k =>
    if k2 = k then removeField fs k else (k2, v2) :: removeField fs k

/-- Prepends an object member parsed to the LEFT of the already-parsed suffix
members: a duplicate key keeps this (first) position but the later (suffix)
value, matching the JS object-literal semantics of `JSON.parse`. -/
def prependField (k : String) (v : JVal) (fs : List (String × JVal)) :
    List (String × JVal) :=
  match fs.lookup k with
  | some v2 => (k, v2) :: removeField fs k
  | none => (k, v) :: fs

mutual

/-- One JSON value (fuel-bounded recursive descent): the literals `null`,
`true`, `false`, strings, arrays, objects and numbers, with leading
whitespace. -/
def parseJsonV : Nat → List Char → Option (JVal × List Char)
  | 0, _ => none
  | fuel + 1, cs =>
    match skipWs cs with
    | [] => none
    | c :: rest =>
      if c = 'n' then
        match rest with
        | 'u' :: 'l' :: 'l' :: r => some (.null, r)
        | _ => none
      else if c = 't' then
        match rest with
        | 'r' :: 'u' :: 'e' :: r => some (.bool true, r)
        | _ => none
      else if c = 'f' then
        match rest with
        | 'a' :: 'l' :: 's' :: 'e' :: r => some (.bool false, r)
        | _ => none
      else if c = '"' then
        match parseJStr fuel rest with
        | some (s, r) => some (.str s, r)
        | none => none
      else if c = '[' then
        match skipWs rest with
        | ']' :: r => some (.arr [], r)
        | cs2 =>
          match parseJArrElems fuel cs2 with
          | some (xs, r) => some (.arr xs, r)
          | none => none
      else if c = '\x7b' then
        match skipWs rest with
        | '\x7d' :: r => some (.obj [], r)
        | cs2 =>
          match parseJObjMembers fuel cs2 with
          | some (fs, r) => some (.obj fs, r)
          | none => none
      else if c = '-' ∨ isDigitChar c then
        match parseJNum (c :: rest) with
        | some (q, r) => some (.num q, r)
        | none => none
      else none

/-- JSON string body after the opening quote: plain scalar characters above
U+001F, the short escapes and `\uXXXX` (a code unit outside the scalar range
maps through `Char.ofNat`'s total default). -/
def parseJStr : Nat → List Char → Option (String × List Char)
  | 0, _ => none
  | fuel + 1, cs =>
    match cs with
    | [] => none
    | c :: rest =>
      if c = '"' then some ("", rest)
      else if c = '\\' then
        match rest with
        | [] => none
        | e :: rest2 =>
          let esc : Option (Char × List Char) :=
            if e = '"' then some ('"', rest2)
            else if e = '\\' then some ('\\', rest2)
            else if e = '/' then some ('/', rest2)
            else if e = 'b' then some ('\x08', rest2)
            else if e = 'f' then some ('\x0c', rest2)
            else if e = 'n' then some ('\n', rest2)
            else if e = 'r' then some ('\r', rest2)
            else if e = 't' then some ('\t', rest2)
            else if e = 'u' then
              match parseHex4 rest2 with
              | some (n, rest3) => some (Char.ofNat n, rest3)
              | none => none
            else none
          match esc with
          | some (ch, rest3) =>
            match parseJStr fuel rest3 with
            | some (s, rest4) => some (String.mk (ch :: s.data), rest4)
            | none => none
          | none => none
      else if c.toNat < 32 then none
      else
        match parseJStr fuel rest with
        | some (s, rest4) => some (String.mk (c :: s.data), rest4)
        | none => none

/-- Non-empty array tail: `value (, value)* ]`. -/
def parseJArrElems : Nat → List Char → Option (List JVal × List Char)
  | 0, _ => none
  | fuel + 1, cs =>
    match parseJsonV fuel cs with
    | none => none
    | some (v, r) =>
      match skipWs r with
      | ',' :: r2 =>
        match parseJArrElems fuel r2 with
        | some (xs, r3) => some (v :: xs, r3)
        | none => none
      | ']' :: r2 => some ([v], r2)
      | _ => none

/-- Non-empty object tail: `"key" : value (, "key" : value)*` up to the
closing brace. -/
def parseJObjMembers : Nat → List Char → Option (List (String × JVal) × List Char)
  | 0, _ => none
  | fuel + 1, cs =>
    match skipWs cs with
    | '"' :: r =>
      match parseJStr fuel r with
      | none => none
      | some (k, r2) =>
        match skipWs r2 with
        | ':' :: r3 =>
          match parseJsonV fuel r3 with
          | none => none
          | some (v, r4) =>
            match skipWs r4 with
            | ',' :: r5 =>
              match parseJObjMembers fuel r5 with
              | some (fs, r6) => some (prependField k v fs, r6)
              | none => none
            | '\x7d' :: r5 => some ([(k, v)], r5)
            | _ => none
        | _ => none
    | _ => none

end

/-- Model of the external `JSON.parse`: parses one JSON text with optional
surrounding whitespace; `none` models the thrown `SyntaxError`.  The fuel
`2 * length + 4` strictly dominates the recursion depth (at most two nested
calls per consumed character), so it never runs out on any input. -/
def jsonParse (s : String) : Option JVal :=
  match parseJsonV (2 * s.data.length + 4) s.data with
  | some (v, r) => if skipWs r = [] then some v else none
  | none => none

/-- The component state observable through the `data` / `styleConfig` setters:
the two stored configuration objects, the batch flag, the shadow-DOM build
(abstracted to the input snapshot it was built from plus a counter, since C2
only observes whether a rebuild happened) and the developer console log.  The
remaining private fields (`#transpose`, `#sortedColumn`, `#aggregateColumns`)
are not touched by these setters and are omitted. -/
structure CState where
  tableData : JVal
  style : JVal
  batchMode : Bool
  renderCount : Nat
  shadow : Option (JVal × JVal)
  console : List String
  deriving Repr, DecidableEq

/-- Abstracts `#render`: rebuilds the shadow content from the current
`#tableData` / `#style` pair and advances the build counter. -/
def renderNow (st : CState) : CState :=
  { st with renderCount := st.renderCount + 1,
            shadow := some (st.tableData, st.style) }

/-- Replace-or-append field write `obj[k] = v`. -/
def setField : List (String × JVal) → String → JVal → List (String × JVal)
  | [], k, v => [(k, v)]
  | (k2, v2) :: fs, k, v =>
    if k2 = k then (k2, v) :: fs else (k2, v2) :: setField fs k v

/-- Embeds `this.#style.cssType ??= DEFAULTS.CSS_TYPE`: assigns the default
only when the property is nullish; reading or creating a property on a
non-object throws (class bodies are strict mode). -/
def ensureCssType : JVal → Except String JVal
  | .obj fs =>
    match fs.lookup "cssType" with
    | some .null => .ok (.obj (setField fs "cssType" (.str DEFAULTS.CSS_TYPE)))
    | some .undef => .ok (.obj (setField fs "cssType" (.str DEFAULTS.CSS_TYPE)))
    | some _ => .ok (.obj fs)
    | none => .ok (.obj (setField fs "cssType" (.str DEFAULTS.CSS_TYPE)))
  | .null => .error "TypeError: cannot read properties of null (reading cssType)"
  | .undef => .error "TypeError: cannot read properties of undefined (reading cssType)"
  | _ => .error "TypeError: cannot create property cssType on a primitive"

def dataInvalidMsg (s : String) : String :=
  "Invalid JSON supplied to <table-maker> “data” attribute:\n " ++ s

def styleInvalidMsg (s : String) : String :=
  "Invalid JSON supplied to <table-maker> “style-config” attribute:\n " ++ s

def parseErrMsg : String := "Parse error: SyntaxError"

/-- The nullish fallback `v.style ?? (empty object)` applied to the raw `style`
member read. -/
def styleFallback (v : JVal) : JVal :=
  match v with
  | .null => .obj []
  | .undef => .obj []
  | x => x

namespace TableMakerComponent

/-- Embeds `set data(v)`: a string is JSON-parsed, and on failure the previous
object is kept, two diagnostics go to the console and the setter returns
before rendering; a non-string is stored as-is and `#style` is refreshed from
its `style` member (a nullish member falls back to `(empty object)`, and property
access on a nullish `v` throws).  A successful assignment renders unless batch
mode is on.  A thrown error is modelled as the error value alone. -/
def setData (st : CState) (v : JVal) : Except String CState :=
  match v with
  | .str s =>
    match jsonParse s with
    | some parsed =>
      let st2 := { st with tableData := parsed }
      .ok (if st2.batchMode then st2 else renderNow st2)
    | none =>
      .ok { st with console := st.console ++ [dataInvalidMsg s, parseErrMsg] }
  | _ => do
    let styRaw ← getMember v "style"
    let sty2 ← ensureCssType (styleFallback styRaw)
    let st2 := { st with tableData := v, style := sty2 }
    .ok (if st2.batchMode then st2 else renderNow st2)

/-- Embeds `set styleConfig(v)`: a string is JSON-parsed, and on failure the
previous object is kept, two diagnostics go to the console and the setter
returns before rendering; otherwise the new style gets the `cssType` default
applied and the component renders unless batch mode is on. -/
def setStyleConfig (st : CState) (v : JVal) : Except String CState :=
  match v with
  | .str s =>
    match jsonParse s with
    | some parsed => do
      let sty2 ← ensureCssType parsed
      let st2 := { st with style := sty2 }
      .ok (if st2.batchMode then st2 else renderNow st2)
    | none =>
      .ok { st with console := st.console ++ [styleInvalidMsg s, parseErrMsg] }
  | v2 => do
    let sty2 ← ensureCssType v2
    let st2 := { st with style := sty2 }
    .ok (if st2.batchMode then st2 else renderNow st2)

end TableMakerComponent

/-- The field initialisers of the component: a minimal `data` object carrying
only the default style, mirrored into `#style`. -/
def initialCState : CState :=
  { tableData := .obj [("style", .obj [("cssType", .str DEFAULTS.CSS_TYPE)])],
    style := .obj [("cssType", .str DEFAULTS.CSS_TYPE)],
    batchMode := false,
    renderCount := 0,
    shadow := none,
    console := [] }

mutual

/-- JSON-clean values: the fragment on which the `JSON.parse(JSON.stringify)`
deep copy is the identity (no NaN and no undefined anywhere). -/
def jsonClean : JVal → Bool
  | .num _ => true
  | .nan => false
  | .bool _ => true
  | .str _ => true
  | .null => true
  | .undef => false
  | .arr xs => jsonCleanList xs
  | .obj fs => jsonCleanFields fs

def jsonCleanList : List JVal → Bool
  | [] => true
  | x :: xs => jsonClean x && jsonCleanList xs

def jsonCleanFields : List (String × JVal) → Bool
  | [] => true
  | (_, v) :: fs => jsonClean v && jsonCleanFields fs

end

namespace TableMakerComponent

/-- The row-preparation input of `#buildStandardTable`: display-cell
derivation runs on a `JSON.parse(JSON.stringify(...))` deep copy of the stored
rows, never on the caller's row objects. -/
def deepCopyRows (rows : List JRow) : List JRow := rows.map jsonRoundTripFields

end TableMakerComponent

def c7D : JVal := .obj [("rows", .arr [])]

def c7St2 : CState :=
  { tableData := c7D,
    style := .obj [("cssType", .str DEFAULTS.CSS_TYPE)],
    batchMode := false,
    renderCount := 1,
    shadow := some (c7D, .obj [("cssType", .str DEFAULTS.CSS_TYPE)]),
    console := [] }

def c7Rows : List JRow := [[("a", .num (Q.ofInt 1))]]

def c7Ts : TableMakerComponent.TState := ⟨⟨[], c7Rows⟩, ⟨none, true⟩⟩

-- model of <tab-handler> tab panes and <table-maker> detail rows (C6)

/-- One tab content pane as `_renderTabs` creates it: `dataset.unrendered`
starts `true`, `dataset.tabSpec` stores the serialized spec, visibility is
toggled by `openTab`. -/
structure TabPane where
  tabID : String
  tabSpec : JVal
  unrendered : Bool
  visible : Bool
  deriving Repr, DecidableEq

namespace TabHandlerComponent

/-- Embeds `_populateTabWithoutOpening`: a pane still marked unrendered gets
the `renderTab` custom event (payload `path`/`tabID`/`tabSpec`) dispatched and
its marker deleted; any other pane is left untouched with no event.  Returns
the updated pane and the list of dispatched events. -/
def populateTabWithoutOpening (path : JVal) (pane : TabPane) :
    TabPane × List JVal :=
  if pane.unrendered then
    ({ pane with unrendered := false },
      [.obj [("path", path), ("tabID", .str pane.tabID), ("tabSpec", pane.tabSpec)]])
  else (pane, [])

end TabHandlerComponent

/-- A detail row under a data row: hidden by default, its content is built at
construction time. -/
structure DetailRow where
  visible : Bool
  content : List JVal
  deriving Repr, DecidableEq

namespace TableMakerComponent

/-- Embeds `#buildDetailRow`: the nested `<table-maker>` (fed the raw
`_DETAILS_TABLE_` spec) and/or the `<pre>` JSON dump of `_DETAILS_OTHER_` are
constructed immediately while the row is built, before any reveal; the row
starts hidden. -/
def buildDetailRow (row : JRow) : DetailRow :=
  let dt := (row.lookup "_DETAILS_TABLE_").getD .undef
  let dother := (row.lookup "_DETAILS_OTHER_").getD .undef
  { visible := false,
    content :=
      (if jsTruthy dt then [JVal.obj [("tag", .str "table-maker"), ("data", dt)]]
       else []) ++
      (if jsTruthy dother then [JVal.obj [("tag", .str "pre"), ("payload", dother)]]
       else []) }

/-- Embeds the click handler made by `#makeToggleHandler`: it only flips the
detail row's visibility (and the caret glyph); it dispatches no event and
leaves the content untouched. -/
def toggleDetailClick (d : DetailRow) : DetailRow × List JVal :=
  ({ d with visible := !d.visible }, [])

end TableMakerComponent

def sampleDetailRow : JRow :=
  [("a", TableMaker.cellObj (.str "text") (.str "x") (.str "x")),
   ("_DETAILS_TABLE_", .obj [("rows", .arr [])])]

def sampleTabPane : TabPane :=
  { tabID := "overview", tabSpec := .obj [("title", .str "Overview")],
    unrendered := true, visible := false }

-- model of the recursive <tab-handler> tree (C9)

def cssAllowedChar (c : Char) : Bool :=
  (97 ≤ c.toNat ∧ c.toNat ≤ 122) ∨ (65 ≤ c.toNat ∧ c.toNat ≤ 90) ∨
  (48 ≤ c.toNat ∧ c.toNat ≤ 57) ∨ c = '_' ∨ c = '-'

def collapseUnderscores : List Char → List Char
  | [] => []
  | c :: rest =>
    if c = '_' then
      match collapseUnderscores rest with
      | '_' :: r2 => '_' :: r2
      | r2 => '_' :: r2
    else c :: collapseUnderscores rest

namespace TabHandlerComponent

/-- Embeds the static `_cssSafe` (applied here to the string the source would
get from `String(raw)`): illegal characters become `_`, runs of `_` collapse,
and a leading digit gets an `_` prefix. -/
def cssSafe (s : String) : String :=
  let cleaned :=
    collapseUnderscores (s.data.map (fun c => if cssAllowedChar c then c else '_'))
  match cleaned with
  | c :: _ => if isDigitChar c then String.mk ('_' :: cleaned) else String.mk cleaned
  | [] => ""

end TabHandlerComponent

/-- One entry of a `tabData` spec array: optional explicit `id`, a `title`,
and an optional nested `tabs` array (empty models an absent/empty array). -/
inductive TabSpec where
  | mk (tid : Option String) (title : String) (tabs : List TabSpec)

/-- `('id' in t) ? t.id : t.title` (used for pane and button ids). -/
def TabSpec.entryId : TabSpec → String
  | .mk (some i) _ _ => i
  | .mk none t _ => t

/-- `('id' in spec) ? spec.id : _cssSafe(spec.title)` (used for nested ids and
the cascade's `openTab` argument; note the explicit id is NOT css-escaped
here). -/
def TabSpec.leafId : TabSpec → String
  | .mk (some i) _ _ => i
  | .mk none t _ => TabHandlerComponent.cssSafe t

def TabSpec.tabs : TabSpec → List TabSpec
  | .mk _ _ ts => ts

/-- A rendered handler: its element id, its `dataset.path`, and its panes in
spec order, each pane holding `(tabID, spec, nested handler)`.  The pane-level
lazy-populate state is modelled separately by `TabPane`. -/
inductive HNode where
  | mk (hid : String) (path : List String)
      (panes : List (String × TabSpec × Option HNode))

def HNode.hid : HNode → String
  | .mk i _ _ => i

def HNode.panes : HNode → List (String × TabSpec × Option HNode)
  | .mk _ _ ps => ps

mutual

def renderPanes (hid : String) (path : List String) :
    List TabSpec → List (String × TabSpec × Option HNode)
  | [] => []
  | t :: ts =>
    (TabHandlerComponent.cssSafe t.entryId, t, renderNested hid path t)
      :: renderPanes hid path ts

/-- Embeds `_createNestedHandlers` for one spec entry: a nested handler with
id `parentId_nested_leafId` and the extended `dataset.path`, fed the child
spec array (which renders it recursively). -/
def renderNested (hid : String) (path : List String) : TabSpec → Option HNode
  | .mk _ _ [] => none
  | .mk tid title (c :: cs) =>
    some (HNode.mk (hid ++ "_nested_" ++ TabSpec.leafId (.mk tid title (c :: cs)))
      (path ++ [hid ++ "_nested_" ++ TabSpec.leafId (.mk tid title (c :: cs))])
      (renderPanes (hid ++ "_nested_" ++ TabSpec.leafId (.mk tid title (c :: cs)))
        (path ++ [hid ++ "_nested_" ++ TabSpec.leafId (.mk tid title (c :: cs))])
        (c :: cs)))

end

/-- Embeds `_renderTabs` (structure-building part): one pane per spec entry
keyed by the css-safe entry id, and — as the source comment says — EAGERLY one
nested handler for every entry that has children, created right after the root
UI, before any tab is opened. -/
def renderTabs (hid : String) (path : List String) (specs : List TabSpec) : HNode :=
  HNode.mk hid path (renderPanes hid path specs)

def paneLookup : List (String × TabSpec × Option HNode) → String →
    Option (TabSpec × Option HNode)
  | [], _ => none
  | (tid, spec, nested) :: rest, t =>
    if tid = t then some (spec, nested) else paneLookup rest t

/-- `nestedHandler.tabData?.[0]`: the first spec of a rendered handler. -/
def firstSpecOf : HNode → Option TabSpec
  | .mk _ _ [] => none
  | .mk _ _ ((_, spec, _) :: _) => some spec

/-- Embeds the selection cascade of `openTab`: opening a pane whose content
hosts a nested handler immediately opens that child's first tab, recursively;
a pane without a nested handler ends the cascade (and is lazily populated).
Returns the `(handler id, tab id)` selections performed, `none` modelling the
thrown error when the pane id does not resolve (or fuel exhaustion). -/
def openCascadeF : Nat → HNode → String → Option (List (String × String))
  | 0, _, _ => none
  | fuel + 1, h, t =>
    match paneLookup h.panes t with
    | none => none
    | some (_, none) => some [(h.hid, t)]
    | some (_, some child) =>
      match firstSpecOf child with
      | none => some [(h.hid, t)]
      | some fs =>
        match openCascadeF fuel child fs.leafId with
        | some chain => some ((h.hid, t) :: chain)
        | none => none

mutual

/-- The depth-first chain of first-tab selections below a handler: its first
pane, then recursively the first-pane chain of that pane's nested handler.
The chain's last element is the deepest first leaf. -/
def firstLeafChain : HNode → List (String × String)
  | .mk hid _ panes => firstLeafChainPanes hid panes

def firstLeafChainPanes : String → List (String × TabSpec × Option HNode) →
    List (String × String)
  | _, [] => []
  | hid, (tid, _, none) :: _ => [(hid, tid)]
  | hid, (tid, _, some child) :: _ => (hid, tid) :: firstLeafChain child

end

mutual

def specDepth : TabSpec → Nat
  | .mk _ _ tabs => 1 + specsDepth tabs

def specsDepth : List TabSpec → Nat
  | [] => 0
  | t :: ts => max (specDepth t) (specsDepth ts)

end

mutual

/-- Spec well-formedness for the cascade: every explicit id is css-safe (so
`openTab(leafId)` resolves the pane that `_renderTabs` keyed by the css-safe
entry id). -/
def wfSpec : TabSpec → Bool
  | .mk tid _ tabs =>
    (match tid with
     | some i => TabHandlerComponent.cssSafe i == i
     | none => true) && wfSpecs tabs

def wfSpecs : List TabSpec → Bool
  | [] => true
  | t :: ts => wfSpec t && wfSpecs ts

end

/-- The selection chain a pane's nested handler contributes: nothing for a
leaf pane, the child's first-leaf chain otherwise. -/
def nestChain : Option HNode → List (String × String)
  | none => []
  | some child => firstLeafChain child

def c9Specs : List TabSpec :=
  [.mk none "Home" [], .mk none "More" [.mk none "Deep" []]]

def c9Child : HNode :=
  renderTabs "root_nested_More" ["root", "root_nested_More"] [.mk none "Deep" []]


-- From here on: the theorems of the development.

namespace Q

theorem dpos_rat (a : Q) : (0 : Rat) < (a.d : Rat) := by
  exact_mod_cast a.dpos

theorem toRat_ble (a b : Q) : ble a b = true ↔ toRat a ≤ toRat b := by
  unfold ble toRat
  rw [div_le_div_iff₀ (dpos_rat a) (dpos_rat b)]
  constructor
  · intro h
    have h2 : (a.n : Rat) * (b.d : Rat) ≤ (b.n : Rat) * (a.d : Rat) := by
      exact_mod_cast of_decide_eq_true h
    exact h2
  · intro h
    apply decide_eq_true
    exact_mod_cast h

theorem toRat_blt (a b : Q) : blt a b = true ↔ toRat a < toRat b := by
  unfold blt toRat
  rw [div_lt_div_iff₀ (dpos_rat a) (dpos_rat b)]
  constructor
  · intro h
    have h2 : (a.n : Rat) * (b.d : Rat) < (b.n : Rat) * (a.d : Rat) := by
      exact_mod_cast of_decide_eq_true h
    exact h2
  · intro h
    apply decide_eq_true
    exact_mod_cast h

theorem toRat_add (a b : Q) : toRat (add a b) = toRat a + toRat b := by
  unfold add toRat
  have ha := (dpos_rat a).ne.symm
  have hb := (dpos_rat b).ne.symm
  push_cast
  field_simp

theorem toRat_isZero (a : Q) : isZero a = true ↔ toRat a = 0 := by
  unfold isZero toRat
  have ha := (dpos_rat a).ne.symm
  constructor
  · intro h
    have : a.n = 0 := by exact_mod_cast of_decide_eq_true h
    rw [this]
    simp
  · intro h
    apply decide_eq_true
    have := div_eq_zero_iff.mp h
    rcases this with h1 | h2
    · exact_mod_cast h1
    · exact absurd h2 ha

theorem toRat_ofInt (i : Int) : toRat (ofInt i) = (i : Rat) := by
  unfold ofInt toRat
  simp

theorem ble_total (a b : Q) : ble a b = true ∨ ble b a = true := by
  rcases le_total (toRat a) (toRat b) with h | h
  · exact Or.inl ((toRat_ble a b).mpr h)
  · exact Or.inr ((toRat_ble b a).mpr h)

theorem ble_trans {a b c : Q} (h1 : ble a b = true) (h2 : ble b c = true) :
    ble a c = true :=
  (toRat_ble a c).mpr (le_trans ((toRat_ble a b).mp h1) ((toRat_ble b c).mp h2))

end Q

theorem strCmpL_swap (a b : List Char) : strCmpL a b = -strCmpL b a := by
  induction a generalizing b with
  | nil => cases b <;> simp [strCmpL]
  | cons x xs ih =>
    cases b with
    | nil => simp [strCmpL]
    | cons y ys =>
      simp only [strCmpL]
      rcases Nat.lt_trichotomy x.toNat y.toNat with h | h | h
      · rw [if_pos h, if_neg (Nat.lt_asymm h), if_pos h]
      · rw [if_neg (by omega), if_neg (by omega), if_neg (by omega),
          if_neg (by omega)]
        exact ih ys
      · rw [if_neg (Nat.lt_asymm h), if_pos h, if_pos h]
        rfl

theorem strCmp_swap (s t : String) : strCmp s t = -strCmp t s :=
  strCmpL_swap s.data t.data

theorem strCmpL_self (a : List Char) : strCmpL a a = 0 := by
  induction a with
  | nil => rfl
  | cons x xs ih => simp [strCmpL, ih]

theorem strCmpL_eq_zero {a b : List Char} (h : strCmpL a b = 0) : a = b := by
  induction a generalizing b with
  | nil => cases b with
    | nil => rfl
    | cons y ys => simp [strCmpL] at h
  | cons x xs ih =>
    cases b with
    | nil => simp [strCmpL] at h
    | cons y ys =>
      simp only [strCmpL] at h
      rcases Nat.lt_trichotomy x.toNat y.toNat with hc | hc | hc
      · rw [if_pos hc] at h; exact absurd h (by decide)
      · rw [if_neg (by omega), if_neg (by omega)] at h
        have hx : x = y :=
          Char.eq_of_val_eq (UInt32.eq_of_toBitVec_eq (BitVec.eq_of_toNat_eq hc))
        rw [hx, ih h]
      · rw [if_neg (Nat.lt_asymm hc), if_pos hc] at h
        exact absurd h (by decide)

theorem strCmpL_trans {a b c : List Char} (h1 : strCmpL a b ≤ 0)
    (h2 : strCmpL b c ≤ 0) : strCmpL a c ≤ 0 := by
  induction a generalizing b c with
  | nil => cases c <;> simp [strCmpL]
  | cons x xs ih =>
    cases b with
    | nil => simp [strCmpL] at h1
    | cons y ys =>
      cases c with
      | nil => simp [strCmpL] at h2
      | cons z zs =>
        simp only [strCmpL] at h1 h2 ⊢
        by_cases hxy : x.toNat < y.toNat
        · rw [if_pos hxy] at h1
          by_cases hyz : y.toNat < z.toNat
          · rw [if_pos (by omega)]
            decide
          · by_cases hzy : z.toNat < y.toNat
            · rw [if_neg hyz, if_pos hzy] at h2
              exact absurd h2 (by decide)
            · rw [if_pos (by omega)]
              decide
        · by_cases hyx : y.toNat < x.toNat
          · rw [if_neg hxy, if_pos hyx] at h1
            exact absurd h1 (by decide)
          · by_cases hyz : y.toNat < z.toNat
            · rw [if_pos (by omega)]
              decide
            · by_cases hzy : z.toNat < y.toNat
              · rw [if_neg hyz, if_pos hzy] at h2
                exact absurd h2 (by decide)
              · rw [if_neg (by omega), if_neg (by omega)]
                rw [if_neg hxy, if_neg hyx] at h1
                rw [if_neg hyz, if_neg hzy] at h2
                exact ih h1 h2

theorem strCmp_trans {a b c : String} (h1 : strCmp a b ≤ 0)
    (h2 : strCmp b c ≤ 0) : strCmp a c ≤ 0 :=
  strCmpL_trans h1 h2

theorem strCmp_eq_zero {a b : String} (h : strCmp a b = 0) : a = b := by
  cases a
  cases b
  exact congrArg String.mk (strCmpL_eq_zero h)

-- support lemmas for the claim theorems

theorem optMapM_getElem {α β : Type} {f : α → Option β} :
    ∀ {l : List α} {l2 : List β}, optMapM f l = some l2 →
    ∀ {i : Nat} {a : α}, l[i]? = some a → ∃ b, l2[i]? = some b ∧ f a = some b := by
  intro l
  induction l with
  | nil =>
    intro l2 h i a ha
    simp at ha
  | cons x xs ih =>
    intro l2 h i a ha
    simp only [optMapM, Option.bind_eq_bind, Option.bind_eq_some] at h
    obtain ⟨b, hb, rest, hrest, heq⟩ := h
    have heq2 : b :: rest = l2 := by simpa using heq
    subst heq2
    cases i with
    | zero =>
      simp only [List.getElem?_cons_zero, Option.some.injEq] at ha
      subst ha
      exact ⟨b, by simp, hb⟩
    | succ j =>
      simp only [List.getElem?_cons_succ] at ha ⊢
      exact ih hrest ha

theorem deriveRow_lookup (cols : List (String × ColInfo)) :
    ∀ {row row2 : JRow}, TableMaker.deriveRow cols row = some row2 →
    ∀ {c : String} {v : JVal}, row.lookup c = some v → c ∉ RESERVED_KEYS →
    ∃ w, TableMaker.deriveCellVal cols c v = some w ∧ row2.lookup c = some w := by
  intro row
  induction row with
  | nil =>
    intro row2 h c v hc
    simp at hc
  | cons e rest ih =>
    intro row2 h c v hc hres
    obtain ⟨k, x⟩ := e
    simp only [TableMaker.deriveRow, optMapM, Option.bind_eq_bind,
      Option.bind_eq_some] at h
    obtain ⟨b, hb, rest2, hrest2, heq⟩ := h
    have heq2 : b :: rest2 = row2 := by simpa using heq
    subst heq2
    by_cases hkc : c = k
    · subst hkc
      simp only [List.lookup, beq_self_eq_true, Option.some.injEq] at hc
      subst hc
      rw [if_neg hres] at hb
      obtain ⟨w, hw, hbw⟩ := Option.map_eq_some'.mp hb
      refine ⟨w, hw, ?_⟩
      rw [← hbw]
      simp [List.lookup]
    · have hck : (c == k) = false := beq_false_of_ne hkc
      simp only [List.lookup, hck] at hc
      have hb1 : b.1 = k := by
        by_cases hr : k ∈ RESERVED_KEYS
        · rw [if_pos hr] at hb
          cases hb
          rfl
        · rw [if_neg hr] at hb
          obtain ⟨w, _, hbw⟩ := Option.map_eq_some'.mp hb
          rw [← hbw]
      obtain ⟨w, hw, hlk⟩ := ih hrest2 hc hres
      refine ⟨w, hw, ?_⟩
      obtain ⟨b1, b2⟩ := b
      simp only at hb1
      subst hb1
      simp only [List.lookup, hck]
      exact hlk

theorem createCellDisplayValues_parts {df d1 : DF}
    (h : TableMaker.createCellDisplayValues df = some d1) :
    d1.cols = df.cols ∧ optMapM (TableMaker.deriveRow df.cols) df.rows = some d1.rows := by
  simp only [TableMaker.createCellDisplayValues, Option.map_eq_some'] at h
  obtain ⟨rows2, hr, heq⟩ := h
  subst heq
  exact ⟨rfl, hr⟩

theorem cellObj_sizeOf_gt (t a v : JVal) :
    sizeOf v < sizeOf (TableMaker.cellObj t a v) := by
  unfold TableMaker.cellObj
  simp only [JVal.obj.sizeOf_spec, List.cons.sizeOf_spec, List.nil.sizeOf_spec,
    Prod.mk.sizeOf_spec]
  omega

theorem cellObj_ne_disp (t a v : JVal) : TableMaker.cellObj t a v ≠ v := by
  intro h
  have hs := congrArg sizeOf h
  have := cellObj_sizeOf_gt t a v
  omega

theorem deriveCellVal_text {cols : List (String × ColInfo)} {c : String} (v : JVal)
    (ht : ((cols.lookup c).getD ColInfo.empty).type.getD (.str COL_TYPES.TEXT) =
      .str COL_TYPES.TEXT) :
    TableMaker.deriveCellVal cols c v =
      some (TableMaker.cellObj (.str COL_TYPES.TEXT) v v) := by
  simp only [TableMaker.deriveCellVal, ht]
  rfl

theorem getMemberOpt_cellObj_disp (t a v : JVal) :
    getMemberOpt (TableMaker.cellObj t a v) "disp" = v := by
  rfl

theorem deriveCellVal_money {cols : List (String × ColInfo)} {c : String} (v : JVal)
    (hm : ((cols.lookup c).getD ColInfo.empty).type.getD (.str COL_TYPES.TEXT) =
      .str COL_TYPES.MONEY) :
    TableMaker.deriveCellVal cols c v =
      (Formatter.formatMoney v
        (((cols.lookup c).getD ColInfo.empty).precision.getD DEFAULTS.PRECISION)
        (.str DEFAULTS.CURRENCY)).map
        (fun d => TableMaker.cellObj (.str COL_TYPES.MONEY) v (.str d)) := by
  simp only [TableMaker.deriveCellVal, hm]
  rfl

theorem calcOneAggregate_money_sum (ag : AggCol) (rows : List JRow)
    (hm : ag.type.getD (.str COL_TYPES.TEXT) = .str COL_TYPES.MONEY)
    (hsum : ag.aggregate = .str "sum") :
    TableMakerComponent.calcOneAggregate ag rows = (do
      let d ← TableMakerComponent.liftFmt (Formatter.formatMoney
        (TableMakerComponent.calcSum ag.col rows)
        (ag.precision.getD DEFAULTS.PRECISION) (.str DEFAULTS.CURRENCY))
      pure (ag.col, TableMakerComponent.calcSum ag.col rows, .str d)) := by
  simp only [TableMakerComponent.calcOneAggregate, hm, hsum]
  rfl

theorem calcOneAggregate_money_currency_blind (ag : AggCol) (cur2 : Option JVal)
    (rows : List JRow)
    (hm : ag.type.getD (.str COL_TYPES.TEXT) = .str COL_TYPES.MONEY) :
    TableMakerComponent.calcOneAggregate { ag with currency := cur2 } rows =
      TableMakerComponent.calcOneAggregate ag rows := by
  have h1 : ({ ag with currency := cur2 } : AggCol).type = ag.type := rfl
  have h2 : ({ ag with currency := cur2 } : AggCol).col = ag.col := rfl
  have h3 : ({ ag with currency := cur2 } : AggCol).precision = ag.precision := rfl
  have h4 : ({ ag with currency := cur2 } : AggCol).aggregate = ag.aggregate := rfl
  simp only [TableMakerComponent.calcOneAggregate, h1, h2, h3, h4, hm]
  rfl

/-- C1 counterexample: applying `createCellDisplayValues` a second time to its
own output does change a cell's disp — for a one-column text table the disp
after one derivation is the raw string and after two derivations it is the
entire first-derivation cell object. -/
theorem c1_second_derivation_changes_a_disp :
    dispAt ((TableMaker.createCellDisplayValues sampleTextDf).bind
        TableMaker.createCellDisplayValues) 0 "month" ≠
      dispAt (TableMaker.createCellDisplayValues sampleTextDf) 0 "month" := by
  decide

/-- C1 (amended): `createCellDisplayValues` is not idempotent.  A second
application to its own output re-wraps every non-reserved cell; for a column of
(defaulted) text type the once-derived cell is `{type, value: v, disp: v}` and
the twice-derived cell is that cell wrapped again, whose `disp` — the whole
first cell — always differs from the first `disp`.  (Re-rendering is stable
only because the renderer always re-derives from a deep copy of the original
raw rows, never from derived output.) -/
theorem c1_createCellDisplayValues_not_idempotent
    (df d1 d2 : DF) (i : Nat) (row : JRow) (c : String) (v : JVal)
    (h1 : TableMaker.createCellDisplayValues df = some d1)
    (h2 : TableMaker.createCellDisplayValues d1 = some d2)
    (hrow : df.rows[i]? = some row)
    (hc : row.lookup c = some v)
    (hres : c ∉ RESERVED_KEYS)
    (htext : ((df.cols.lookup c).getD ColInfo.empty).type.getD (.str COL_TYPES.TEXT) =
      .str COL_TYPES.TEXT) :
    ∃ row1 row2, d1.rows[i]? = some row1 ∧ d2.rows[i]? = some row2 ∧
      row1.lookup c = some (TableMaker.cellObj (.str COL_TYPES.TEXT) v v) ∧
      row2.lookup c = some (TableMaker.cellObj (.str COL_TYPES.TEXT)
        (TableMaker.cellObj (.str COL_TYPES.TEXT) v v)
        (TableMaker.cellObj (.str COL_TYPES.TEXT) v v)) ∧
      getMemberOpt (TableMaker.cellObj (.str COL_TYPES.TEXT)
          (TableMaker.cellObj (.str COL_TYPES.TEXT) v v)
          (TableMaker.cellObj (.str COL_TYPES.TEXT) v v)) "disp" ≠
        getMemberOpt (TableMaker.cellObj (.str COL_TYPES.TEXT) v v) "disp" := by
  obtain ⟨hcols1, hrows1⟩ := createCellDisplayValues_parts h1
  obtain ⟨hcols2, hrows2⟩ := createCellDisplayValues_parts h2
  obtain ⟨row1, hrow1, hd1⟩ := optMapM_getElem hrows1 hrow
  obtain ⟨w1, hw1, hlk1⟩ := deriveRow_lookup df.cols hd1 hc hres
  rw [deriveCellVal_text v htext] at hw1
  have hw1e : w1 = TableMaker.cellObj (.str COL_TYPES.TEXT) v v := by
    simpa using hw1.symm
  subst hw1e
  obtain ⟨row2, hrow2, hd2⟩ := optMapM_getElem hrows2 hrow1
  rw [hcols1] at hd2
  obtain ⟨w2, hw2, hlk2⟩ := deriveRow_lookup df.cols hd2 hlk1 hres
  rw [deriveCellVal_text _ htext] at hw2
  have hw2e : w2 = TableMaker.cellObj (.str COL_TYPES.TEXT)
      (TableMaker.cellObj (.str COL_TYPES.TEXT) v v)
      (TableMaker.cellObj (.str COL_TYPES.TEXT) v v) := by
    simpa using hw2.symm
  subst hw2e
  refine ⟨row1, row2, hrow1, hrow2, hlk1, hlk2, ?_⟩
  rw [getMemberOpt_cellObj_disp, getMemberOpt_cellObj_disp]
  exact cellObj_ne_disp _ _ v

theorem c1_createCellDisplayValues_not_idempotent_witness :
    ∃ row1 row2, sampleTextDf1.rows[0]? = some row1 ∧ sampleTextDf2.rows[0]? = some row2 ∧
      row1.lookup "month" = some (TableMaker.cellObj (.str COL_TYPES.TEXT)
        (.str "Jan") (.str "Jan")) ∧
      row2.lookup "month" = some (TableMaker.cellObj (.str COL_TYPES.TEXT)
        (TableMaker.cellObj (.str COL_TYPES.TEXT) (.str "Jan") (.str "Jan"))
        (TableMaker.cellObj (.str COL_TYPES.TEXT) (.str "Jan") (.str "Jan"))) ∧
      getMemberOpt (TableMaker.cellObj (.str COL_TYPES.TEXT)
          (TableMaker.cellObj (.str COL_TYPES.TEXT) (.str "Jan") (.str "Jan"))
          (TableMaker.cellObj (.str COL_TYPES.TEXT) (.str "Jan") (.str "Jan"))) "disp" ≠
        getMemberOpt (TableMaker.cellObj (.str COL_TYPES.TEXT) (.str "Jan") (.str "Jan"))
          "disp" :=
  c1_createCellDisplayValues_not_idempotent sampleTextDf sampleTextDf1 sampleTextDf2
    0 [("month", .str "Jan")] "month" (.str "Jan")
    (by decide) (by decide) (by decide) (by decide) (by decide) (by decide)

/-- C3: for a `money` (not `money_2`) column, both the derived cell disp and
the aggregate-row disp are computed by `formatMoney` with the default currency
(`DEFAULTS.CURRENCY = "INR"`): the column's declared `currency` is never
passed, so replacing it with any other value changes neither the cell nor the
aggregate rendering. -/
theorem c3_money_always_uses_default_currency
    (cols cols2 : List (String × ColInfo)) (c : String) (v : JVal) (cur2 : Option JVal)
    (ag : AggCol) (rows : List JRow)
    (hm : ((cols.lookup c).getD ColInfo.empty).type.getD (.str COL_TYPES.TEXT) =
      .str COL_TYPES.MONEY)
    (h12 : (cols2.lookup c).getD ColInfo.empty =
      { (cols.lookup c).getD ColInfo.empty with currency := cur2 })
    (hagm : ag.type.getD (.str COL_TYPES.TEXT) = .str COL_TYPES.MONEY)
    (hsum : ag.aggregate = .str "sum") :
    TableMaker.deriveCellVal cols c v =
      (Formatter.formatMoney v
        (((cols.lookup c).getD ColInfo.empty).precision.getD DEFAULTS.PRECISION)
        (.str DEFAULTS.CURRENCY)).map
        (fun d => TableMaker.cellObj (.str COL_TYPES.MONEY) v (.str d)) ∧
    TableMaker.deriveCellVal cols2 c v = TableMaker.deriveCellVal cols c v ∧
    TableMakerComponent.calcOneAggregate ag rows = (do
      let d ← TableMakerComponent.liftFmt (Formatter.formatMoney
        (TableMakerComponent.calcSum ag.col rows)
        (ag.precision.getD DEFAULTS.PRECISION) (.str DEFAULTS.CURRENCY))
      pure (ag.col, TableMakerComponent.calcSum ag.col rows, .str d)) ∧
    TableMakerComponent.calcOneAggregate { ag with currency := cur2 } rows =
      TableMakerComponent.calcOneAggregate ag rows ∧
    DEFAULTS.CURRENCY = "INR" := by
  have hm2 : ((cols2.lookup c).getD ColInfo.empty).type.getD (.str COL_TYPES.TEXT) =
      .str COL_TYPES.MONEY := by
    rw [h12]
    exact hm
  refine ⟨deriveCellVal_money v hm, ?_, calcOneAggregate_money_sum ag rows hagm hsum,
    calcOneAggregate_money_currency_blind ag cur2 rows hagm, rfl⟩
  rw [deriveCellVal_money v hm, deriveCellVal_money v hm2, h12]

theorem c3_money_always_uses_default_currency_witness :
    TableMaker.deriveCellVal sampleMoneyCols "revenue" (.num (Q.ofInt 120000)) =
      (Formatter.formatMoney (.num (Q.ofInt 120000))
        (((sampleMoneyCols.lookup "revenue").getD ColInfo.empty).precision.getD
          DEFAULTS.PRECISION)
        (.str DEFAULTS.CURRENCY)).map
        (fun d => TableMaker.cellObj (.str COL_TYPES.MONEY) (.num (Q.ofInt 120000))
          (.str d)) ∧
    TableMaker.deriveCellVal sampleMoneyCols2 "revenue" (.num (Q.ofInt 120000)) =
      TableMaker.deriveCellVal sampleMoneyCols "revenue" (.num (Q.ofInt 120000)) ∧
    TableMakerComponent.calcOneAggregate sampleMoneyAggCol sampleMoneyRows = (do
      let d ← TableMakerComponent.liftFmt (Formatter.formatMoney
        (TableMakerComponent.calcSum sampleMoneyAggCol.col sampleMoneyRows)
        (sampleMoneyAggCol.precision.getD DEFAULTS.PRECISION) (.str DEFAULTS.CURRENCY))
      pure (sampleMoneyAggCol.col,
        TableMakerComponent.calcSum sampleMoneyAggCol.col sampleMoneyRows, .str d)) ∧
    TableMakerComponent.calcOneAggregate
        { sampleMoneyAggCol with currency := some (.str "EUR") } sampleMoneyRows =
      TableMakerComponent.calcOneAggregate sampleMoneyAggCol sampleMoneyRows ∧
    DEFAULTS.CURRENCY = "INR" :=
  c3_money_always_uses_default_currency sampleMoneyCols sampleMoneyCols2 "revenue"
    (.num (Q.ofInt 120000)) (some (.str "EUR")) sampleMoneyAggCol sampleMoneyRows
    (by decide) (by decide) (by decide) (by decide)

/-- C8: for a row whose raw value for a sum-aggregated `money_2` column is not
an array, the display-cell path degrades gracefully to an empty cell, but the
`sum` aggregation path throws (`.value.forEach` on a non-array), aborting the
whole render instead of degrading. -/
theorem c8_money2_nonarray_aggregation_throws :
    TableMaker.deriveCellVal
        [("pay", ⟨some (.str COL_TYPES.MONEY2), none, none, none, none,
          some (.str "sum")⟩)]
        "pay" (.num (Q.ofInt 5)) =
      some (TableMaker.cellObj (.str COL_TYPES.MONEY2) (.num (Q.ofInt 5)) (.str "")) ∧
    TableMakerComponent.calcGroupAggregates
        (TableMakerComponent.createAggregateColumnArray
          [("pay", ⟨some (.str COL_TYPES.MONEY2), none, none, none, none,
            some (.str "sum")⟩)] none)
        [[("pay", TableMaker.cellObj (.str COL_TYPES.MONEY2) (.num (Q.ofInt 5))
          (.str ""))]] =
      .error "TypeError: arr[col].value.forEach is not a function" := by
  decide

theorem clampGet_of_ne_nil {l : List JVal} (h : l ≠ []) (i : Nat) :
    Formatter.clampGet l i = l.getD (min i (l.length - 1)) .undef := by
  cases l with
  | nil => exact absurd rfl h
  | cons x xs => rfl

theorem formatMoney2Aux_spec (precisions currencies : List JVal) :
    ∀ (amounts : List JVal) (idx : Nat) (pieces : List String),
      pieces.length = amounts.length →
      (∀ i, i < amounts.length →
        Formatter.formatMoney (amounts.getD i .undef)
          (Formatter.clampGet precisions (idx + i))
          (Formatter.clampGet currencies (idx + i)) = some (pieces.getD i "")) →
      Formatter.formatMoney2Aux precisions currencies idx amounts = some pieces := by
  intro amounts
  induction amounts with
  | nil =>
    intro idx pieces hlen hp
    cases pieces with
    | nil => rfl
    | cons p ps => simp at hlen
  | cons a rest ih =>
    intro idx pieces hlen hp
    cases pieces with
    | nil => simp at hlen
    | cons p ps =>
      have h0 := hp 0 (by simp)
      simp only [List.getD_cons_zero, Nat.add_zero] at h0
      have hrest : Formatter.formatMoney2Aux precisions currencies (idx + 1) rest =
          some ps := by
        apply ih (idx + 1) ps (by simpa using hlen)
        intro i hi
        have h2 := hp (i + 1) (by simpa using hi)
        simp only [List.getD_cons_succ] at h2
        have he : idx + (i + 1) = idx + 1 + i := by omega
        rw [he] at h2
        exact h2
      simp only [Formatter.formatMoney2Aux, h0, hrest, Option.bind_eq_bind,
        Option.some_bind]
      rfl

/-- C10: `formatMoney2` formats element `i` of the amounts with the precision
and currency at index `min i (length - 1)` of the respective sequences (the
index clamps to the last entry when the amounts run longer) and joins the
per-element results with `<br>`. -/
theorem c10_formatMoney2_clamps_and_joins
    (amounts precisions currencies : List JVal) (pieces : List String)
    (hp : precisions ≠ []) (hc : currencies ≠ [])
    (hlen : pieces.length = amounts.length)
    (hpieces : ∀ i, i < amounts.length →
      Formatter.formatMoney (amounts.getD i .undef)
        (precisions.getD (min i (precisions.length - 1)) .undef)
        (currencies.getD (min i (currencies.length - 1)) .undef) =
        some (pieces.getD i "")) :
    Formatter.formatMoney2 amounts precisions currencies =
      some (String.intercalate "<br>" pieces) := by
  have haux : Formatter.formatMoney2Aux precisions currencies 0 amounts = some pieces := by
    apply formatMoney2Aux_spec precisions currencies amounts 0 pieces hlen
    intro i hi
    rw [clampGet_of_ne_nil hp, clampGet_of_ne_nil hc]
    simpa using hpieces i hi
  unfold Formatter.formatMoney2
  rw [haux]
  rfl

theorem c10_formatMoney2_clamps_and_joins_witness :
    Formatter.formatMoney2
        [.num (Q.ofInt 12000), .num ⟨291, 2, by decide⟩]
        [.num (Q.ofInt 0), .num (Q.ofInt 2)]
        [.str "INR", .str "USD"] =
      some (String.intercalate "<br>" ["₹12,000", "$145.50"]) :=
  c10_formatMoney2_clamps_and_joins
    [.num (Q.ofInt 12000), .num ⟨291, 2, by decide⟩]
    [.num (Q.ofInt 0), .num (Q.ofInt 2)]
    [.str "INR", .str "USD"]
    ["₹12,000", "$145.50"]
    (by decide) (by decide) (by decide) (by decide)

theorem jsInsert_perm {α : Type} (le : α → α → Bool) (a : α) (l : List α) :
    (jsInsert le a l).Perm (a :: l) := by
  induction l with
  | nil => rfl
  | cons b t ih =>
    simp only [jsInsert]
    by_cases h : le a b
    · rw [if_pos h]
    · rw [if_neg h]
      exact (ih.cons b).trans (List.Perm.swap a b t)

theorem jsSortL_perm {α : Type} (le : α → α → Bool) (l : List α) :
    (jsSortL le l).Perm l := by
  induction l with
  | nil => rfl
  | cons a t ih =>
    simp only [jsSortL]
    exact (jsInsert_perm le a (jsSortL le t)).trans (ih.cons a)

theorem mem_jsSortL {α : Type} {le : α → α → Bool} {l : List α} {x : α}
    (h : x ∈ jsSortL le l) : x ∈ l :=
  (jsSortL_perm le l).mem_iff.mp h

theorem jsInsert_congr {α : Type} (le le2 : α → α → Bool) (a : α) :
    ∀ (l : List α),
      (∀ x ∈ a :: l, ∀ y ∈ a :: l, le x y = le2 x y) →
      jsInsert le a l = jsInsert le2 a l := by
  intro l
  induction l with
  | nil => intro h; rfl
  | cons b t ih =>
    intro h
    have hsub : ∀ x ∈ a :: t, ∀ y ∈ a :: t, le x y = le2 x y := by
      intro x hx y hy
      apply h
      · rcases List.mem_cons.mp hx with h1 | h1
        · simp [h1]
        · simp [h1]
      · rcases List.mem_cons.mp hy with h1 | h1
        · simp [h1]
        · simp [h1]
    simp only [jsInsert]
    rw [h a (by simp) b (by simp)]
    by_cases hb : le2 a b
    · rw [if_pos hb, if_pos hb]
    · rw [if_neg hb, if_neg hb, ih hsub]

theorem jsSortL_congr {α : Type} (le le2 : α → α → Bool) :
    ∀ (l : List α),
      (∀ x ∈ l, ∀ y ∈ l, le x y = le2 x y) →
      jsSortL le l = jsSortL le2 l := by
  intro l
  induction l with
  | nil => intro h; rfl
  | cons a t ih =>
    intro h
    simp only [jsSortL]
    rw [ih (fun x hx y hy => h x (by simp [hx]) y (by simp [hy]))]
    apply jsInsert_congr
    intro x hx y hy
    have hx2 : x ∈ a :: t := by
      rcases List.mem_cons.mp hx with h1 | h1
      · simp [h1]
      · simp [mem_jsSortL h1]
    have hy2 : y ∈ a :: t := by
      rcases List.mem_cons.mp hy with h1 | h1
      · simp [h1]
      · simp [mem_jsSortL h1]
    exact h x hx2 y hy2

theorem jsInsert_pairwise {α : Type} (le : α → α → Bool) (a : α) :
    ∀ (l : List α),
      l.Pairwise (fun x y => le x y = true) →
      (∀ z ∈ l, le a z = true ∨ le z a = true) →
      (∀ y ∈ l, ∀ z ∈ l, le a y = true → le y z = true → le a z = true) →
      (jsInsert le a l).Pairwise (fun x y => le x y = true) := by
  intro l
  induction l with
  | nil =>
    intro _ _ _
    simp [jsInsert]
  | cons b t ih =>
    intro hl htot htr
    rcases List.pairwise_cons.mp hl with ⟨hb, ht⟩
    simp only [jsInsert]
    by_cases hab : le a b
    · rw [if_pos hab]
      apply List.pairwise_cons.mpr
      refine ⟨?_, hl⟩
      intro z hz
      rcases List.mem_cons.mp hz with h1 | h1
      · rw [h1]; exact hab
      · exact htr b (by simp) z (by simp [h1]) hab (hb z h1)
    · rw [if_neg hab]
      have hba : le b a = true := by
        rcases htot b (by simp) with h1 | h1
        · exact absurd h1 hab
        · exact h1
      apply List.pairwise_cons.mpr
      constructor
      · intro z hz
        rcases List.mem_cons.mp ((jsInsert_perm le a t).mem_iff.mp hz) with h1 | h1
        · rw [h1]; exact hba
        · exact hb z h1
      · apply ih ht
        · intro z hz
          exact htot z (by simp [hz])
        · intro y hy z hz
          exact htr y (by simp [hy]) z (by simp [hz])

theorem jsSortL_pairwise {α : Type} (le : α → α → Bool) :
    ∀ (l : List α),
      (∀ x ∈ l, ∀ y ∈ l, le x y = true ∨ le y x = true) →
      (∀ x ∈ l, ∀ y ∈ l, ∀ z ∈ l, le x y = true → le y z = true → le x z = true) →
      (jsSortL le l).Pairwise (fun x y => le x y = true) := by
  intro l
  induction l with
  | nil =>
    intro _ _
    simp [jsSortL]
  | cons a t ih =>
    intro htot htr
    simp only [jsSortL]
    apply jsInsert_pairwise
    · apply ih
      · intro x hx y hy
        exact htot x (by simp [hx]) y (by simp [hy])
      · intro x hx y hy z hz
        exact htr x (by simp [hx]) y (by simp [hy]) z (by simp [hz])
    · intro z hz
      exact htot a (by simp) z (by simp [mem_jsSortL hz])
    · intro y hy z hz
      exact htr a (by simp) y (by simp [mem_jsSortL hy]) z (by simp [mem_jsSortL hz])

theorem jsInsert_no_hit {α : Type} (le : α → α → Bool) (a : α) :
    ∀ (m : List α), (∀ z ∈ m, le a z = false) → jsInsert le a m = m ++ [a] := by
  intro m
  induction m with
  | nil => intro _; rfl
  | cons b t ih =>
    intro h
    simp only [jsInsert]
    rw [if_neg (by simp [h b (by simp)]), ih (fun z hz => h z (by simp [hz]))]
    rfl

theorem jsInsert_last_hit {α : Type} (le : α → α → Bool) (a b : α) (h : le a b = true) :
    ∀ (m : List α), jsInsert le a (m ++ [b]) = jsInsert le a m ++ [b] := by
  intro m
  induction m with
  | nil =>
    simp [jsInsert, h]
  | cons c t ih =>
    show jsInsert le a (c :: (t ++ [b])) = jsInsert le a (c :: t) ++ [b]
    simp only [jsInsert]
    by_cases hac : le a c
    · rw [if_pos hac, if_pos hac]
      rfl
    · rw [if_neg hac, if_neg hac, ih]
      simp

theorem jsInsert_flip_reverse {α : Type} (le : α → α → Bool) (a : α) :
    ∀ (s : List α),
      s.Pairwise (fun x y => le x y = true) →
      (∀ z ∈ s, le a z = true ∨ le z a = true) →
      (∀ y ∈ s, ∀ z ∈ s, le a y = true → le y z = true → le a z = true) →
      (∀ z ∈ s, ¬(le a z = true ∧ le z a = true)) →
      jsInsert (fun x y => le y x) a s.reverse = (jsInsert le a s).reverse := by
  intro s
  induction s with
  | nil =>
    intro _ _ _ _
    rfl
  | cons b t ih =>
    intro hs htot htr hst
    rcases List.pairwise_cons.mp hs with ⟨hb, ht⟩
    by_cases hab : le a b
    · have hnab : ∀ z ∈ b :: t, le z a = false := by
        intro z hz
        rcases List.mem_cons.mp hz with h1 | h1
        · subst h1
          by_contra hzz
          exact hst z (by simp) ⟨hab, by simpa using hzz⟩
        · have haz : le a z = true := htr b (by simp) z (by simp [h1]) hab (hb z h1)
          by_contra hzz
          exact hst z (by simp [h1]) ⟨haz, by simpa using hzz⟩
      have hrev : ∀ z ∈ (b :: t).reverse, (fun x y => le y x) a z = false := by
        intro z hz
        exact hnab z (List.mem_reverse.mp hz)
      rw [jsInsert_no_hit _ a ((b :: t).reverse) hrev]
      simp only [jsInsert, if_pos hab]
      simp
    · have hba : le b a = true := by
        rcases htot b (by simp) with h1 | h1
        · exact absurd h1 hab
        · exact h1
      have : (b :: t).reverse = t.reverse ++ [b] := by simp
      rw [this]
      rw [jsInsert_last_hit (fun x y => le y x) a b (by simpa using hba)]
      rw [ih ht (fun z hz => htot z (by simp [hz]))
        (fun y hy z hz => htr y (by simp [hy]) z (by simp [hz]))
        (fun z hz => hst z (by simp [hz]))]
      simp only [jsInsert, if_neg hab]
      simp

theorem jsSortL_flip_reverse {α : Type} (le : α → α → Bool) :
    ∀ (l : List α),
      (∀ x ∈ l, ∀ y ∈ l, le x y = true ∨ le y x = true) →
      (∀ x ∈ l, ∀ y ∈ l, ∀ z ∈ l, le x y = true → le y z = true → le x z = true) →
      l.Pairwise (fun x y => ¬(le x y = true ∧ le y x = true)) →
      jsSortL (fun x y => le y x) l = (jsSortL le l).reverse := by
  intro l
  induction l with
  | nil => intro _ _ _; rfl
  | cons a t ih =>
    intro htot htr hst
    rcases List.pairwise_cons.mp hst with ⟨hsta, hstt⟩
    simp only [jsSortL]
    rw [ih (fun x hx y hy => htot x (by simp [hx]) y (by simp [hy]))
      (fun x hx y hy z hz => htr x (by simp [hx]) y (by simp [hy]) z (by simp [hz]))
      hstt]
    apply jsInsert_flip_reverse
    · apply jsSortL_pairwise
      · intro x hx y hy
        exact htot x (by simp [hx]) y (by simp [hy])
      · intro x hx y hy z hz
        exact htr x (by simp [hx]) y (by simp [hy]) z (by simp [hz])
    · intro z hz
      exact htot a (by simp) z (by simp [mem_jsSortL hz])
    · intro y hy z hz
      exact htr a (by simp) y (by simp [mem_jsSortL hy]) z (by simp [mem_jsSortL hz])
    · intro z hz
      exact hsta z (mem_jsSortL hz)

-- comparator facts used by the sorting claims

theorem numOrdLt_asymm {x y : NumOrd} (h : numOrdLt x y = true) :
    numOrdLt y x = false := by
  cases x with
  | ninfty =>
    cases y with
    | ninfty => simp [numOrdLt] at h
    | fin q => simp [numOrdLt]
  | fin a =>
    cases y with
    | ninfty => simp [numOrdLt] at h
    | fin b =>
      simp only [numOrdLt] at h ⊢
      have h1 := (Q.toRat_blt a b).mp h
      by_contra hc
      have h2 := (Q.toRat_blt b a).mp (by simpa using hc)
      linarith

theorem cmpNumOpt_swap (x y : Option NumOrd) :
    TableMakerComponent.cmpNumOpt x y = -TableMakerComponent.cmpNumOpt y x := by
  cases x with
  | none => cases y <;> rfl
  | some a =>
    cases y with
    | none => rfl
    | some b =>
      by_cases h1 : numOrdLt a b
      · have h1b := numOrdLt_asymm h1
        simp [TableMakerComponent.cmpNumOpt, h1, h1b]
      · by_cases h2 : numOrdLt b a
        · have h2b := numOrdLt_asymm h2
          simp [TableMakerComponent.cmpNumOpt, h1, h2, h2b]
        · simp [TableMakerComponent.cmpNumOpt, h1, h2]

theorem cmpNorm_swap (a b : NormVal) :
    TableMakerComponent.cmpNorm a b = -TableMakerComponent.cmpNorm b a := by
  cases a <;> cases b <;>
    simp only [TableMakerComponent.cmpNorm] <;>
    first
      | exact strCmp_swap _ _
      | exact cmpNumOpt_swap _ _

theorem cmpNorm_numv_le (x y : Q) :
    TableMakerComponent.cmpNorm (.numv x) (.numv y) ≤ 0 ↔ Q.toRat x ≤ Q.toRat y := by
  have hx : TableMakerComponent.cmpNorm (.numv x) (.numv y) =
      if Q.blt x y then -1 else if Q.blt y x then 1 else 0 := rfl
  rw [hx]
  by_cases h : Q.blt x y
  · rw [if_pos h]
    have h1 := (Q.toRat_blt x y).mp h
    constructor
    · intro _
      linarith
    · intro _
      decide
  · by_cases h2 : Q.blt y x
    · rw [if_neg h, if_pos h2]
      have h3 := (Q.toRat_blt y x).mp h2
      constructor
      · intro hc
        exact absurd hc (by decide)
      · intro hc
        linarith
    · rw [if_neg h, if_neg h2]
      have h3 : ¬ Q.toRat y < Q.toRat x := fun hc => h2 ((Q.toRat_blt y x).mpr hc)
      constructor
      · intro _
        linarith
      · intro _
        decide

theorem cmpNorm_strv (s t : String) :
    TableMakerComponent.cmpNorm (.strv s) (.strv t) = strCmp s t := rfl

theorem rowCmp_swap (df : DF) (col : String) (a b : JRow) :
    rowCmp df col a b = -rowCmp df col b a := by
  unfold rowCmp TableMakerComponent.sortByComparator
  exact cmpNorm_swap _ _

theorem rowCmp_eq_cmpNorm (df : DF) (col : String) (a b : JRow) :
    rowCmp df col a b = TableMakerComponent.cmpNorm (normKey df col a) (normKey df col b) :=
  rfl

/-- C4 counterexample: descending is not the exact reverse of ascending when
two rows compare equal on the sort column. -/
theorem c4_desc_not_reverse_of_asc_with_ties :
    (TableMakerComponent.sortBy sampleTieState "x" false).tableData.rows ≠
      ((TableMakerComponent.sortBy sampleTieState "x" true).tableData.rows).reverse := by
  decide

/-- C4 (amended): after `#sortBy` ascending on a column whose values all
normalise to numbers, or all to strings, every adjacent pair of rows satisfies
`comparator ≤ 0` (the column's comparison rule: numeric for number-normalised
values, locale string compare otherwise); the sort permutes the rows; the first
header click on a not-currently-sorted column sorts ascending; and sorting
descending (the negated comparator) yields exactly the reverse of the
ascending sequence provided no two rows compare equal on the column — with
ties, the stable sort preserves the original relative order in both directions,
so descending is not the exact reverse. -/
theorem c4_sortBy_asc_sorted_desc_reverse
    (st : TableMakerComponent.TState) (col : String)
    (hom : (∀ r ∈ st.tableData.rows, ∃ q : Q, normKey st.tableData col r = .numv q) ∨
           (∀ r ∈ st.tableData.rows, ∃ s : String, normKey st.tableData col r = .strv s)) :
    List.Chain' (fun a b => rowCmp st.tableData col a b ≤ 0)
      (TableMakerComponent.sortBy st col true).tableData.rows ∧
    ((TableMakerComponent.sortBy st col true).tableData.rows).Perm st.tableData.rows ∧
    (st.sortedColumn.colName ≠ some col →
      TableMakerComponent.headerClickSort st col =
        TableMakerComponent.sortBy st col true) ∧
    (st.tableData.rows.Pairwise (fun a b => rowCmp st.tableData col a b ≠ 0) →
      (TableMakerComponent.sortBy st col false).tableData.rows =
        ((TableMakerComponent.sortBy st col true).tableData.rows).reverse) := by
  have hsortAsc : (TableMakerComponent.sortBy st col true).tableData.rows =
      jsSortL (fun a b => decide (rowCmp st.tableData col a b ≤ 0))
        st.tableData.rows := rfl
  have hsortDesc : (TableMakerComponent.sortBy st col false).tableData.rows =
      jsSortL (fun a b => decide (-rowCmp st.tableData col a b ≤ 0))
        st.tableData.rows := rfl
  have htot : ∀ x ∈ st.tableData.rows, ∀ y ∈ st.tableData.rows,
      decide (rowCmp st.tableData col x y ≤ 0) = true ∨
      decide (rowCmp st.tableData col y x ≤ 0) = true := by
    intro x _ y _
    rcases le_or_lt (rowCmp st.tableData col x y) 0 with h | h
    · exact Or.inl (decide_eq_true h)
    · right
      apply decide_eq_true
      rw [rowCmp_swap st.tableData col y x]
      omega
  have htr : ∀ x ∈ st.tableData.rows, ∀ y ∈ st.tableData.rows,
      ∀ z ∈ st.tableData.rows,
      decide (rowCmp st.tableData col x y ≤ 0) = true →
      decide (rowCmp st.tableData col y z ≤ 0) = true →
      decide (rowCmp st.tableData col x z ≤ 0) = true := by
    intro x hx y hy z hz h1 h2
    have h1b := of_decide_eq_true h1
    have h2b := of_decide_eq_true h2
    apply decide_eq_true
    rcases hom with hnum | hstr
    · obtain ⟨qx, hqx⟩ := hnum x hx
      obtain ⟨qy, hqy⟩ := hnum y hy
      obtain ⟨qz, hqz⟩ := hnum z hz
      rw [rowCmp_eq_cmpNorm, hqx, hqy] at h1b
      rw [rowCmp_eq_cmpNorm, hqy, hqz] at h2b
      rw [rowCmp_eq_cmpNorm, hqx, hqz]
      exact (cmpNorm_numv_le qx qz).mpr
        (le_trans ((cmpNorm_numv_le qx qy).mp h1b) ((cmpNorm_numv_le qy qz).mp h2b))
    · obtain ⟨sx, hsx⟩ := hstr x hx
      obtain ⟨sy, hsy⟩ := hstr y hy
      obtain ⟨sz, hsz⟩ := hstr z hz
      rw [rowCmp_eq_cmpNorm, hsx, hsy, cmpNorm_strv] at h1b
      rw [rowCmp_eq_cmpNorm, hsy, hsz, cmpNorm_strv] at h2b
      rw [rowCmp_eq_cmpNorm, hsx, hsz, cmpNorm_strv]
      exact strCmp_trans h1b h2b
  refine ⟨?_, ?_, ?_, ?_⟩
  · rw [hsortAsc]
    have hpw := jsSortL_pairwise
      (fun a b => decide (rowCmp st.tableData col a b ≤ 0)) st.tableData.rows htot htr
    exact (hpw.imp (fun h => of_decide_eq_true h)).chain'
  · rw [hsortAsc]
    exact jsSortL_perm _ _
  · intro hne
    unfold TableMakerComponent.headerClickSort
    rw [if_neg hne]
  · intro hnt
    rw [hsortAsc, hsortDesc]
    have hcongr : jsSortL (fun a b => decide (-rowCmp st.tableData col a b ≤ 0))
        st.tableData.rows =
        jsSortL (fun a b => decide (rowCmp st.tableData col b a ≤ 0))
          st.tableData.rows := by
      apply jsSortL_congr
      intro x _ y _
      apply (decide_eq_decide).mpr
      rw [rowCmp_swap st.tableData col y x]
    rw [hcongr]
    apply jsSortL_flip_reverse
      (fun a b => decide (rowCmp st.tableData col a b ≤ 0)) st.tableData.rows htot htr
    refine hnt.imp ?_
    intro a b hab hcontra
    have h1 := of_decide_eq_true hcontra.1
    have h2 := of_decide_eq_true hcontra.2
    rw [rowCmp_swap st.tableData col b a] at h2
    omega

theorem c4_sortBy_asc_sorted_desc_reverse_witness :
    List.Chain' (fun a b => rowCmp sampleNumState.tableData "x" a b ≤ 0)
      (TableMakerComponent.sortBy sampleNumState "x" true).tableData.rows ∧
    ((TableMakerComponent.sortBy sampleNumState "x" true).tableData.rows).Perm
      sampleNumState.tableData.rows ∧
    (sampleNumState.sortedColumn.colName ≠ some "x" →
      TableMakerComponent.headerClickSort sampleNumState "x" =
        TableMakerComponent.sortBy sampleNumState "x" true) ∧
    (sampleNumState.tableData.rows.Pairwise
        (fun a b => rowCmp sampleNumState.tableData "x" a b ≠ 0) →
      (TableMakerComponent.sortBy sampleNumState "x" false).tableData.rows =
        ((TableMakerComponent.sortBy sampleNumState "x" true).tableData.rows).reverse) :=
  c4_sortBy_asc_sorted_desc_reverse sampleNumState "x"
    (Or.inl (by
      intro r hr
      rcases List.mem_cons.mp hr with h | h
      · exact ⟨Q.ofInt 2, by rw [h]; rfl⟩
      · rcases List.mem_cons.mp h with h2 | h2
        · exact ⟨Q.ofInt 1, by rw [h2]; rfl⟩
        · simp at h2))

-- sign and comparator facts for the grouping claims

theorem Q.toRat_neg (a : Q) : Q.toRat (Q.neg a) = -Q.toRat a := by
  unfold Q.neg Q.toRat
  push_cast
  ring

theorem Q.toRat_sub (a b : Q) : Q.toRat (Q.sub a b) = Q.toRat a - Q.toRat b := by
  unfold Q.sub
  rw [Q.toRat_add, Q.toRat_neg]
  ring

theorem qSign_mem (q : Q) : qSign q = -1 ∨ qSign q = 0 ∨ qSign q = 1 := by
  unfold qSign
  by_cases h1 : q.n < 0
  · simp [h1]
  · by_cases h2 : 0 < q.n
    · simp [h1, h2]
    · simp [h1, h2]

theorem toRat_neg_iff (q : Q) : Q.toRat q < 0 ↔ q.n < 0 := by
  unfold Q.toRat
  constructor
  · intro h
    by_contra hc
    have h0 : (0 : Rat) ≤ (q.n : Rat) := by exact_mod_cast not_lt.mp hc
    have := div_nonneg h0 (le_of_lt (Q.dpos_rat q))
    linarith
  · intro h
    apply div_neg_of_neg_of_pos
    · exact_mod_cast h
    · exact Q.dpos_rat q

theorem toRat_pos_iff (q : Q) : 0 < Q.toRat q ↔ 0 < q.n := by
  unfold Q.toRat
  constructor
  · intro h
    by_contra hc
    have h0 : (q.n : Rat) ≤ 0 := by exact_mod_cast not_lt.mp hc
    have := div_nonpos_of_nonpos_of_nonneg h0 (le_of_lt (Q.dpos_rat q))
    linarith
  · intro h
    apply div_pos
    · exact_mod_cast h
    · exact Q.dpos_rat q

theorem qSign_neg_one_iff (q : Q) : qSign q = -1 ↔ Q.toRat q < 0 := by
  rw [toRat_neg_iff]
  unfold qSign
  by_cases h1 : q.n < 0
  · rw [if_pos h1]
    exact ⟨fun _ => h1, fun _ => rfl⟩
  · by_cases h2 : 0 < q.n
    · rw [if_neg h1, if_pos h2]
      constructor <;> intro h <;> omega
    · rw [if_neg h1, if_neg h2]
      constructor <;> intro h <;> omega

theorem qSign_one_iff (q : Q) : qSign q = 1 ↔ 0 < Q.toRat q := by
  rw [toRat_pos_iff]
  unfold qSign
  by_cases h1 : q.n < 0
  · rw [if_pos h1]
    constructor <;> intro h <;> omega
  · by_cases h2 : 0 < q.n
    · rw [if_neg h1, if_pos h2]
      exact ⟨fun _ => h2, fun _ => rfl⟩
    · rw [if_neg h1, if_neg h2]
      constructor <;> intro h <;> omega

theorem qSign_zero_iff (q : Q) : qSign q = 0 ↔ Q.toRat q = 0 := by
  rw [← Q.toRat_isZero]
  unfold qSign Q.isZero
  rw [decide_eq_true_eq]
  by_cases h1 : q.n < 0
  · rw [if_pos h1]
    constructor <;> intro h <;> omega
  · by_cases h2 : 0 < q.n
    · rw [if_neg h1, if_pos h2]
      constructor <;> intro h <;> omega
    · rw [if_neg h1, if_neg h2]
      constructor <;> intro h <;> omega

theorem qSign_sub_neg (u v : Q) :
    qSign (Q.sub u v) = -1 ↔ Q.toRat u < Q.toRat v := by
  rw [qSign_neg_one_iff, Q.toRat_sub]
  constructor <;> intro h <;> linarith

theorem qSign_sub_one (u v : Q) :
    qSign (Q.sub u v) = 1 ↔ Q.toRat v < Q.toRat u := by
  rw [qSign_one_iff, Q.toRat_sub]
  constructor <;> intro h <;> linarith

theorem qSign_sub_zero (u v : Q) :
    qSign (Q.sub u v) = 0 ↔ Q.toRat u = Q.toRat v := by
  rw [qSign_zero_iff, Q.toRat_sub]
  constructor <;> intro h <;> linarith

theorem qSign_sub_swap (u v : Q) : qSign (Q.sub u v) = -qSign (Q.sub v u) := by
  rcases qSign_mem (Q.sub v u) with h | h | h <;> rw [h]
  · rw [show -(-1 : Int) = 1 from rfl, qSign_sub_one]
    exact (qSign_sub_neg v u).mp h
  · rw [show -(0 : Int) = 0 from rfl, qSign_sub_zero]
    exact ((qSign_sub_zero v u).mp h).symm
  · rw [show -(1 : Int) = -1 from rfl, qSign_sub_neg]
    exact (qSign_sub_one v u).mp h

theorem qSign_sub_congr_left {u v : Q} (h : Q.toRat u = Q.toRat v) (w : Q) :
    qSign (Q.sub u w) = qSign (Q.sub v w) := by
  rcases lt_trichotomy (Q.toRat v) (Q.toRat w) with hc | hc | hc
  · rw [(qSign_sub_neg u w).mpr (by rw [h]; exact hc),
      (qSign_sub_neg v w).mpr hc]
  · rw [(qSign_sub_zero u w).mpr (by rw [h]; exact hc),
      (qSign_sub_zero v w).mpr hc]
  · rw [(qSign_sub_one u w).mpr (by rw [h]; exact hc),
      (qSign_sub_one v w).mpr hc]

theorem qSign_sub_congr_right {u v : Q} (h : Q.toRat u = Q.toRat v) (w : Q) :
    qSign (Q.sub w u) = qSign (Q.sub w v) := by
  rw [qSign_sub_swap, qSign_sub_congr_left h, ← qSign_sub_swap]

theorem strCmpL_mem (a b : List Char) :
    strCmpL a b = -1 ∨ strCmpL a b = 0 ∨ strCmpL a b = 1 := by
  induction a generalizing b with
  | nil => cases b <;> simp [strCmpL]
  | cons x xs ih =>
    cases b with
    | nil => simp [strCmpL]
    | cons y ys =>
      simp only [strCmpL]
      by_cases h1 : x.toNat < y.toNat
      · simp [h1]
      · by_cases h2 : y.toNat < x.toNat
        · simp [h1, h2]
        · simpa [h1, h2] using ih ys

theorem strCmp_mem (s t : String) :
    strCmp s t = -1 ∨ strCmp s t = 0 ∨ strCmp s t = 1 :=
  strCmpL_mem s.data t.data

theorem strCmp_self (s : String) : strCmp s s = 0 :=
  strCmpL_self s.data

theorem strCmp_strict_trans {a b c : String} (h1 : strCmp a b < 0)
    (h2 : strCmp b c < 0) : strCmp a c < 0 := by
  have hle : strCmp a c ≤ 0 := strCmp_trans (le_of_lt h1) (le_of_lt h2)
  rcases lt_or_eq_of_le hle with h | h
  · exact h
  · exfalso
    have hac : a = c := strCmp_eq_zero h
    rw [hac] at h1
    rw [strCmp_swap] at h1
    omega

/-- The generic lexicographic step: if the head-level comparison behaves like
an order embedding (strict transitivity and equality substitution) and the
rest-comparator is transitive, the combined comparator is transitive. -/
theorem lex_trans_step {e12 e23 e13 r12 r23 r13 : Int}
    (hf3 : e12 < 0 → e23 < 0 → e13 < 0)
    (hf4a : e12 = 0 → e13 = e23)
    (hf4b : e23 = 0 → e13 = e12)
    (hr : r12 ≤ 0 → r23 ≤ 0 → r13 ≤ 0)
    (h1 : (if e12 ≠ 0 then e12 else r12) ≤ 0)
    (h2 : (if e23 ≠ 0 then e23 else r23) ≤ 0) :
    (if e13 ≠ 0 then e13 else r13) ≤ 0 := by
  by_cases h12 : e12 = 0
  · rw [if_neg (by simp [h12])] at h1
    have h13 := hf4a h12
    by_cases h23 : e23 = 0
    · rw [if_neg (by simp [h23])] at h2
      rw [if_neg (by simp [h13, h23])]
      exact hr h1 h2
    · rw [if_pos h23] at h2
      rw [if_pos (by rw [h13]; exact h23), h13]
      exact h2
  · rw [if_pos h12] at h1
    have h1lt : e12 < 0 := by omega
    by_cases h23 : e23 = 0
    · have h13 := hf4b h23
      rw [if_pos (by omega), h13]
      omega
    · rw [if_pos h23] at h2
      have h2lt : e23 < 0 := by omega
      have h13 := hf3 h1lt h2lt
      rw [if_pos (by omega)]
      omega

theorem groupLevelRaw_of_nums {col : String} {a b : JRow} {qa qb : Q}
    (ha : TableMakerComponent.cellValOrEmpty a col = .num qa)
    (hb : TableMakerComponent.cellValOrEmpty b col = .num qb) :
    TableMakerComponent.groupLevelRaw col a b = some (qSign (Q.sub qa qb)) := by
  unfold TableMakerComponent.groupLevelRaw
  rw [ha, hb]

theorem groupLevelRaw_of_nonnum {col : String} {a b : JRow}
    (ha : jsNumberTyped (TableMakerComponent.cellValOrEmpty a col) = false)
    (hb : jsNumberTyped (TableMakerComponent.cellValOrEmpty b col) = false) :
    TableMakerComponent.groupLevelRaw col a b =
      some (strCmp (jsToString (TableMakerComponent.cellValOrEmpty a col))
        (jsToString (TableMakerComponent.cellValOrEmpty b col))) := by
  unfold TableMakerComponent.groupLevelRaw
  rcases hva : TableMakerComponent.cellValOrEmpty a col with qa | _ | ba | sa | _ | _ | ea | fa <;>
    rcases hvb : TableMakerComponent.cellValOrEmpty b col with qb | _ | bb | sb | _ | _ | eb | fb <;>
      simp_all [jsNumberTyped]

theorem neg_strCmp (s t : String) : -strCmp s t = strCmp t s := by
  rw [strCmp_swap s t]
  exact neg_neg _

theorem neg_qSign_sub (u v : Q) : -qSign (Q.sub u v) = qSign (Q.sub v u) := by
  rw [qSign_sub_swap v u]

theorem groupLevelRaw_swap (col : String) (a b : JRow) :
    TableMakerComponent.groupLevelRaw col b a =
      (TableMakerComponent.groupLevelRaw col a b).map (fun c => -c) := by
  unfold TableMakerComponent.groupLevelRaw
  rcases TableMakerComponent.cellValOrEmpty a col with qa | _ | ba | sa | _ | _ | ea | fa <;>
    rcases TableMakerComponent.cellValOrEmpty b col with qb | _ | bb | sb | _ | _ | eb | fb <;>
      simp [neg_qSign_sub, neg_strCmp]

theorem groupMultiCmp_swap :
    ∀ (levels : List (String × Bool)) (a b : JRow),
      TableMakerComponent.groupMultiCmp levels b a =
        -TableMakerComponent.groupMultiCmp levels a b := by
  intro levels
  induction levels with
  | nil => intro a b; simp [TableMakerComponent.groupMultiCmp]
  | cons lv rest ih =>
    intro a b
    obtain ⟨col, d⟩ := lv
    rcases hg : TableMakerComponent.groupLevelRaw col a b with _ | c
    · have hg2 : TableMakerComponent.groupLevelRaw col b a = none := by
        rw [groupLevelRaw_swap, hg]
        rfl
      simp [TableMakerComponent.groupMultiCmp, hg, hg2]
    · have hg2 : TableMakerComponent.groupLevelRaw col b a = some (-c) := by
        rw [groupLevelRaw_swap, hg]
        rfl
      simp only [TableMakerComponent.groupMultiCmp, hg, hg2]
      by_cases hc : c = 0
      · subst hc
        simp [ih a b]
      · rw [if_pos (show (-c : Int) ≠ 0 by omega), if_pos hc]
        cases d <;> simp

theorem groupMultiCmp_total (levels : List (String × Bool)) (a b : JRow) :
    TableMakerComponent.groupMultiCmp levels a b ≤ 0 ∨
      TableMakerComponent.groupMultiCmp levels b a ≤ 0 := by
  rw [groupMultiCmp_swap]
  omega

theorem groupMultiCmp_cons_some {col : String} {d : Bool}
    {rest : List (String × Bool)} {a b : JRow} {c : Int}
    (h : TableMakerComponent.groupLevelRaw col a b = some c) :
    TableMakerComponent.groupMultiCmp ((col, d) :: rest) a b =
      if (if d then -c else c) ≠ 0 then (if d then -c else c)
      else TableMakerComponent.groupMultiCmp rest a b := by
  simp only [TableMakerComponent.groupMultiCmp, h]
  by_cases hc : c = 0
  · subst hc
    cases d <;> simp
  · have hadj : (if d then -c else c) ≠ 0 := by
      cases d <;> simp <;> omega
    rw [if_pos hc, if_pos hadj]

theorem qSign_sub_lt (u v : Q) : qSign (Q.sub u v) < 0 ↔ Q.toRat u < Q.toRat v := by
  constructor
  · intro h
    refine (qSign_sub_neg u v).mp ?_
    rcases qSign_mem (Q.sub u v) with h1 | h1 | h1 <;> omega
  · intro h
    rw [(qSign_sub_neg u v).mpr h]
    omega

theorem qSign_sub_pos (u v : Q) : 0 < qSign (Q.sub u v) ↔ Q.toRat v < Q.toRat u := by
  constructor
  · intro h
    refine (qSign_sub_one u v).mp ?_
    rcases qSign_mem (Q.sub u v) with h1 | h1 | h1 <;> omega
  · intro h
    rw [(qSign_sub_one u v).mpr h]
    omega

theorem numLevel_strict {d : Bool} {qa qb qc : Q}
    (h1 : (if d then -qSign (Q.sub qa qb) else qSign (Q.sub qa qb)) < 0)
    (h2 : (if d then -qSign (Q.sub qb qc) else qSign (Q.sub qb qc)) < 0) :
    (if d then -qSign (Q.sub qa qc) else qSign (Q.sub qa qc)) < 0 := by
  cases d
  · have a1 : qSign (Q.sub qa qb) < 0 := h1
    have a2 : qSign (Q.sub qb qc) < 0 := h2
    have b3 : Q.toRat qa < Q.toRat qc :=
      lt_trans ((qSign_sub_lt qa qb).mp a1) ((qSign_sub_lt qb qc).mp a2)
    show qSign (Q.sub qa qc) < 0
    exact (qSign_sub_lt qa qc).mpr b3
  · have a1 : -qSign (Q.sub qa qb) < 0 := h1
    have a2 : -qSign (Q.sub qb qc) < 0 := h2
    have b1 : Q.toRat qb < Q.toRat qa := (qSign_sub_pos qa qb).mp (by omega)
    have b2 : Q.toRat qc < Q.toRat qb := (qSign_sub_pos qb qc).mp (by omega)
    have b3 : 0 < qSign (Q.sub qa qc) := (qSign_sub_pos qa qc).mpr (lt_trans b2 b1)
    show -qSign (Q.sub qa qc) < 0
    omega

theorem numLevel_eqz_left {d : Bool} {qa qb : Q} (qc : Q)
    (h : (if d then -qSign (Q.sub qa qb) else qSign (Q.sub qa qb)) = 0) :
    (if d then -qSign (Q.sub qa qc) else qSign (Q.sub qa qc)) =
      (if d then -qSign (Q.sub qb qc) else qSign (Q.sub qb qc)) := by
  have heq : Q.toRat qa = Q.toRat qb := by
    cases d
    · exact (qSign_sub_zero qa qb).mp h
    · have h2 : -qSign (Q.sub qa qb) = 0 := h
      exact (qSign_sub_zero qa qb).mp (by omega)
  have hc := qSign_sub_congr_left heq qc
  cases d
  · show qSign (Q.sub qa qc) = qSign (Q.sub qb qc)
    exact hc
  · show -qSign (Q.sub qa qc) = -qSign (Q.sub qb qc)
    omega

theorem numLevel_eqz_right {d : Bool} {qb qc : Q} (qa : Q)
    (h : (if d then -qSign (Q.sub qb qc) else qSign (Q.sub qb qc)) = 0) :
    (if d then -qSign (Q.sub qa qc) else qSign (Q.sub qa qc)) =
      (if d then -qSign (Q.sub qa qb) else qSign (Q.sub qa qb)) := by
  have heq : Q.toRat qb = Q.toRat qc := by
    cases d
    · exact (qSign_sub_zero qb qc).mp h
    · have h2 : -qSign (Q.sub qb qc) = 0 := h
      exact (qSign_sub_zero qb qc).mp (by omega)
  have hc := qSign_sub_congr_right heq.symm qa
  cases d
  · show qSign (Q.sub qa qc) = qSign (Q.sub qa qb)
    exact hc
  · show -qSign (Q.sub qa qc) = -qSign (Q.sub qa qb)
    omega

theorem strLevel_strict {d : Bool} {sa sb sc : String}
    (h1 : (if d then -strCmp sa sb else strCmp sa sb) < 0)
    (h2 : (if d then -strCmp sb sc else strCmp sb sc) < 0) :
    (if d then -strCmp sa sc else strCmp sa sc) < 0 := by
  cases d
  · have a1 : strCmp sa sb < 0 := h1
    have a2 : strCmp sb sc < 0 := h2
    show strCmp sa sc < 0
    exact strCmp_strict_trans a1 a2
  · have a1 : -strCmp sa sb < 0 := h1
    have a2 : -strCmp sb sc < 0 := h2
    have b1 : strCmp sb sa < 0 := by rw [strCmp_swap]; omega
    have b2 : strCmp sc sb < 0 := by rw [strCmp_swap]; omega
    have b3 : strCmp sc sa < 0 := strCmp_strict_trans b2 b1
    have b4 : 0 < strCmp sa sc := by rw [strCmp_swap]; omega
    show -strCmp sa sc < 0
    omega

theorem strLevel_eqz_left {d : Bool} {sa sb : String} (sc : String)
    (h : (if d then -strCmp sa sb else strCmp sa sb) = 0) :
    (if d then -strCmp sa sc else strCmp sa sc) =
      (if d then -strCmp sb sc else strCmp sb sc) := by
  have hab : sa = sb := by
    cases d
    · exact strCmp_eq_zero h
    · have h2 : -strCmp sa sb = 0 := h
      exact strCmp_eq_zero (by omega)
  rw [hab]

theorem strLevel_eqz_right {d : Bool} {sb sc : String} (sa : String)
    (h : (if d then -strCmp sb sc else strCmp sb sc) = 0) :
    (if d then -strCmp sa sc else strCmp sa sc) =
      (if d then -strCmp sa sb else strCmp sa sb) := by
  have hbc : sb = sc := by
    cases d
    · exact strCmp_eq_zero h
    · have h2 : -strCmp sb sc = 0 := h
      exact strCmp_eq_zero (by omega)
  rw [hbc]

theorem groupMultiCmp_trans_of_hom (rows : List JRow) :
    ∀ (levels : List (String × Bool)),
      (∀ lv ∈ levels, homogCol rows lv.1) →
      ∀ a ∈ rows, ∀ b ∈ rows, ∀ c ∈ rows,
        TableMakerComponent.groupMultiCmp levels a b ≤ 0 →
        TableMakerComponent.groupMultiCmp levels b c ≤ 0 →
        TableMakerComponent.groupMultiCmp levels a c ≤ 0 := by
  intro levels
  induction levels with
  | nil =>
    intro _ a _ b _ c _ _ _
    exact le_refl 0
  | cons lv rest ih =>
    intro hhom a ha b hb c hc h1 h2
    obtain ⟨col, d⟩ := lv
    have hrest : ∀ lv2 ∈ rest, homogCol rows lv2.1 :=
      fun lv2 h => hhom lv2 (List.mem_cons_of_mem _ h)
    rcases hhom (col, d) (List.mem_cons_self _ _) with hnum | hstr
    · obtain ⟨qa, hqa⟩ := hnum a ha
      obtain ⟨qb, hqb⟩ := hnum b hb
      obtain ⟨qc, hqc⟩ := hnum c hc
      rw [groupMultiCmp_cons_some (groupLevelRaw_of_nums hqa hqb)] at h1
      rw [groupMultiCmp_cons_some (groupLevelRaw_of_nums hqb hqc)] at h2
      rw [groupMultiCmp_cons_some (groupLevelRaw_of_nums hqa hqc)]
      exact lex_trans_step numLevel_strict (numLevel_eqz_left qc)
        (numLevel_eqz_right qa) (ih hrest a ha b hb c hc) h1 h2
    · have hga := hstr a ha
      have hgb := hstr b hb
      have hgc := hstr c hc
      rw [groupMultiCmp_cons_some (groupLevelRaw_of_nonnum hga hgb)] at h1
      rw [groupMultiCmp_cons_some (groupLevelRaw_of_nonnum hgb hgc)] at h2
      rw [groupMultiCmp_cons_some (groupLevelRaw_of_nonnum hga hgc)]
      exact lex_trans_step strLevel_strict
        (strLevel_eqz_left (jsToString (TableMakerComponent.cellValOrEmpty c col)))
        (strLevel_eqz_right (jsToString (TableMakerComponent.cellValOrEmpty a col)))
        (ih hrest a ha b hb c hc) h1 h2

theorem firstOccs_nodup : ∀ (l : List String), (firstOccs l).Nodup := by
  intro l
  induction l with
  | nil => simp [firstOccs]
  | cons k ks ih =>
    simp only [firstOccs]
    refine List.Nodup.cons ?_ (ih.filter _)
    intro hmem
    have := List.of_mem_filter hmem
    simp at this

theorem mem_firstOccs : ∀ {l : List String} {x : String}, x ∈ firstOccs l ↔ x ∈ l := by
  intro l
  induction l with
  | nil => intro x; simp [firstOccs]
  | cons k ks ih =>
    intro x
    simp only [firstOccs, List.mem_cons, List.mem_filter]
    by_cases hx : x = k
    · simp [hx]
    · simp [hx, ih]

theorem join_groups_perm {α : Type} (key : α → String) :
    ∀ (ks : List String) (l : List α), ks.Nodup → (∀ a ∈ l, key a ∈ ks) →
      ((ks.map (fun k => l.filter (fun a => key a = k))).flatten).Perm l := by
  intro ks
  induction ks with
  | nil =>
    intro l _ hcov
    have hl : l = [] := List.eq_nil_iff_forall_not_mem.mpr (fun a ha => by simpa using hcov a ha)
    subst hl
    simp
  | cons k ks ih =>
    intro l hnd hcov
    have hk : k ∉ ks := (List.nodup_cons.mp hnd).1
    have hnd2 : ks.Nodup := (List.nodup_cons.mp hnd).2
    simp only [List.map_cons, List.flatten_cons]
    have hmapeq :
        ks.map (fun k2 => l.filter (fun a => key a = k2)) =
          ks.map (fun k2 => (l.filter (fun a => !(key a = k))).filter (fun a => key a = k2)) := by
      refine List.map_congr_left ?_
      intro k2 hk2
      rw [List.filter_filter]
      refine (List.filter_congr ?_)
      intro a _
      by_cases he : key a = k2
      · have hne2 : ¬k2 = k := fun hkk => hk (hkk ▸ hk2)
        simp [he, hne2]
      · simp [he]
    rw [hmapeq]
    have hcov2 : ∀ a ∈ l.filter (fun a => !(key a = k)), key a ∈ ks := by
      intro a ha
      have hmem := List.mem_of_mem_filter ha
      have hne := List.of_mem_filter ha
      rcases List.mem_cons.mp (hcov a hmem) with h | h
      · exfalso
        simp [h] at hne
      · exact h
    have hperm := ih (l.filter (fun a => !(key a = k))) hnd2 hcov2
    refine (List.Perm.append_left _ hperm).trans ?_
    exact List.filter_append_perm _ l

theorem jsGroupBy_join_perm {α : Type} (key : α → String) (l : List α) :
    (((jsGroupBy key l).map Prod.snd).flatten).Perm l := by
  unfold jsGroupBy
  rw [List.map_map]
  exact join_groups_perm key _ l (firstOccs_nodup _)
    (fun a ha => mem_firstOccs.mpr (List.mem_map_of_mem _ ha))

theorem jsGroupBy_keys_nodup {α : Type} (key : α → String) (l : List α) :
    ((jsGroupBy key l).map Prod.fst).Nodup := by
  unfold jsGroupBy
  rw [List.map_map]
  have hid : (Prod.fst ∘ fun k => (k, l.filter (fun a => key a = k))) = id := rfl
  rw [hid, List.map_id]
  exact firstOccs_nodup _

theorem jsGroupBy_mem_eq {α : Type} {key : α → String} {l : List α}
    {p : String × List α} (hp : p ∈ jsGroupBy key l) :
    p.2 = l.filter (fun a => key a = p.1) := by
  unfold jsGroupBy at hp
  obtain ⟨k, hk, heq⟩ := List.mem_map.mp hp
  subst heq
  rfl

theorem getMemberOpt_cellObj_value (t a v : JVal) :
    getMemberOpt (TableMaker.cellObj t a v) "value" = a := by
  rfl

theorem sumStep_num {col : String} {r : JRow} {t d : JVal} {q : Q} (acc : Q)
    (hc : r.lookup col = some (TableMaker.cellObj t (.num q) d)) :
    TableMakerComponent.sumStep col (.num acc) r = .num (Q.add acc q) := by
  unfold TableMakerComponent.sumStep
  rw [hc]
  rfl

theorem cellRatValue_num {col : String} {r : JRow} {t d : JVal} {q : Q}
    (hc : r.lookup col = some (TableMaker.cellObj t (.num q) d)) :
    cellRatValue r col = Q.toRat q := by
  unfold cellRatValue TableMakerComponent.cellValRaw
  rw [hc]
  rfl

theorem calcSum_foldl_num (col : String) :
    ∀ (g : List JRow) (acc : Q),
      (∀ r ∈ g, ∃ t q d, r.lookup col = some (TableMaker.cellObj t (.num q) d)) →
      ∃ qs, g.foldl (TableMakerComponent.sumStep col) (.num acc) = .num qs ∧
        Q.toRat qs = Q.toRat acc + (g.map (fun r => cellRatValue r col)).sum := by
  intro g
  induction g with
  | nil =>
    intro acc _
    exact ⟨acc, rfl, by simp⟩
  | cons r tl ih =>
    intro acc h
    obtain ⟨t, q, d, hc⟩ := h r (by simp)
    rw [List.foldl_cons, sumStep_num acc hc]
    obtain ⟨qs, hqs, hsum⟩ := ih (Q.add acc q) (fun r2 hr2 => h r2 (by simp [hr2]))
    refine ⟨qs, hqs, ?_⟩
    rw [hsum, Q.toRat_add, List.map_cons, List.sum_cons, cellRatValue_num hc]
    ring

theorem calcSum_num {col : String} {g : List JRow}
    (h : ∀ r ∈ g, ∃ t q d, r.lookup col = some (TableMaker.cellObj t (.num q) d)) :
    ∃ qs, TableMakerComponent.calcSum col g = .num qs ∧
      Q.toRat qs = (g.map (fun r => cellRatValue r col)).sum := by
  obtain ⟨qs, hqs, hsum⟩ := calcSum_foldl_num col g Q.zero h
  refine ⟨qs, hqs, ?_⟩
  rw [hsum]
  have h0 : Q.toRat Q.zero = 0 := by
    unfold Q.zero Q.toRat
    norm_num
    exact Or.inl rfl
  rw [h0]
  ring

/-- **C5**: for a render with a non-empty `group_by` whose columns are
value-homogeneous over the rows (each group column's raw values are all
numbers or all non-numbers, the regime in which the multi-level comparator is
a consistent total preorder and the ECMAScript sort guarantee applies), the
grouping pipeline of `#buildBody` (i) produces a permutation of the rows that
is pairwise ordered under the multi-level group comparator with the declared
per-level directions, (ii) partitions the sorted rows into groups with
pairwise-distinct composite keys, each group holding exactly the sorted rows
carrying its key in their sorted relative order, the groups jointly covering
every row, and (iii) for a `sum`-aggregated column whose cells hold numeric
raw values, the subtotal over a group equals the arithmetic sum of that
column's raw cell values over exactly that group's rows. -/
theorem c5_grouping_sorts_partitions_and_sums
    (group_by : List JVal) (rows : List JRow)
    (hne : group_by ≠ [])
    (hhom : ∀ lv ∈ group_by.map TableMakerComponent.normalizeGroupEntry,
      homogCol rows lv.1) :
    ((TableMakerComponent.buildBodyGrouping group_by rows).1.Perm rows ∧
      (TableMakerComponent.buildBodyGrouping group_by rows).1.Pairwise
        (fun a b => TableMakerComponent.groupMultiCmp
          (group_by.map TableMakerComponent.normalizeGroupEntry) a b ≤ 0)) ∧
    ((((TableMakerComponent.buildBodyGrouping group_by rows).2.map Prod.fst).Nodup ∧
      (∀ p ∈ (TableMakerComponent.buildBodyGrouping group_by rows).2,
        p.2 = (TableMakerComponent.buildBodyGrouping group_by rows).1.filter
          (fun r => TableMakerComponent.groupKeyOf
            ((group_by.map TableMakerComponent.normalizeGroupEntry).map Prod.fst) r = p.1))) ∧
      ((((TableMakerComponent.buildBodyGrouping group_by rows).2.map Prod.snd).flatten).Perm
        (TableMakerComponent.buildBodyGrouping group_by rows).1)) ∧
    (∀ p ∈ (TableMakerComponent.buildBodyGrouping group_by rows).2, ∀ col : String,
      (∀ r ∈ p.2, ∃ t q d, r.lookup col = some (TableMaker.cellObj t (.num q) d)) →
      ∃ qs, TableMakerComponent.calcSum col p.2 = .num qs ∧
        Q.toRat qs = (p.2.map (fun r => cellRatValue r col)).sum) := by
  refine ⟨⟨?_, ?_⟩, ⟨⟨?_, ?_⟩, ?_⟩, ?_⟩
  · exact jsSortL_perm _ rows
  · have hp := jsSortL_pairwise
      (fun a b => decide (TableMakerComponent.groupMultiCmp
        (group_by.map TableMakerComponent.normalizeGroupEntry) a b ≤ 0)) rows
      (fun x _ y _ => by
        rcases groupMultiCmp_total (group_by.map TableMakerComponent.normalizeGroupEntry) x y
          with h | h
        · exact Or.inl (decide_eq_true h)
        · exact Or.inr (decide_eq_true h))
      (fun x hx y hy z hz h1 h2 =>
        decide_eq_true (groupMultiCmp_trans_of_hom rows
          (group_by.map TableMakerComponent.normalizeGroupEntry) hhom x hx y hy z hz
          (of_decide_eq_true h1) (of_decide_eq_true h2)))
    exact hp.imp (fun h => of_decide_eq_true h)
  · exact jsGroupBy_keys_nodup _ _
  · intro p hp
    exact jsGroupBy_mem_eq hp
  · exact jsGroupBy_join_perm _ _
  · intro p _ col h
    exact calcSum_num h

/-- Witness for the C5 theorem on a concrete two-key grouping. -/
theorem c5_grouping_sorts_partitions_and_sums_witness :
    (sampleC5GroupBy ≠ [] ∧
      (∀ lv ∈ sampleC5GroupBy.map TableMakerComponent.normalizeGroupEntry,
        homogCol sampleC5Rows lv.1)) ∧
    (((TableMakerComponent.buildBodyGrouping sampleC5GroupBy sampleC5Rows).1.Perm sampleC5Rows ∧
      (TableMakerComponent.buildBodyGrouping sampleC5GroupBy sampleC5Rows).1.Pairwise
        (fun a b => TableMakerComponent.groupMultiCmp
          (sampleC5GroupBy.map TableMakerComponent.normalizeGroupEntry) a b ≤ 0)) ∧
    ((((TableMakerComponent.buildBodyGrouping sampleC5GroupBy sampleC5Rows).2.map Prod.fst).Nodup ∧
      (∀ p ∈ (TableMakerComponent.buildBodyGrouping sampleC5GroupBy sampleC5Rows).2,
        p.2 = (TableMakerComponent.buildBodyGrouping sampleC5GroupBy sampleC5Rows).1.filter
          (fun r => TableMakerComponent.groupKeyOf
            ((sampleC5GroupBy.map TableMakerComponent.normalizeGroupEntry).map Prod.fst) r
              = p.1))) ∧
      ((((TableMakerComponent.buildBodyGrouping sampleC5GroupBy sampleC5Rows).2.map
          Prod.snd).flatten).Perm
        (TableMakerComponent.buildBodyGrouping sampleC5GroupBy sampleC5Rows).1)) ∧
    (∀ p ∈ (TableMakerComponent.buildBodyGrouping sampleC5GroupBy sampleC5Rows).2,
      ∀ col : String,
      (∀ r ∈ p.2, ∃ t q d, r.lookup col = some (TableMaker.cellObj t (.num q) d)) →
      ∃ qs, TableMakerComponent.calcSum col p.2 = .num qs ∧
        Q.toRat qs = (p.2.map (fun r => cellRatValue r col)).sum)) :=
  have h1 : sampleC5GroupBy ≠ [] := by decide
  have h2 : ∀ lv ∈ sampleC5GroupBy.map TableMakerComponent.normalizeGroupEntry,
      homogCol sampleC5Rows lv.1 := by
    intro lv hlv
    have hmap : sampleC5GroupBy.map TableMakerComponent.normalizeGroupEntry =
        [("dept", false)] := rfl
    rw [hmap] at hlv
    have hlv2 : lv = ("dept", false) := by simpa using hlv
    subst hlv2
    refine Or.inr ?_
    intro r hr
    rcases List.mem_cons.mp hr with h | h
    · rw [h]; rfl
    · rcases List.mem_cons.mp h with h3 | h3
      · rw [h3]; rfl
      · rcases List.mem_cons.mp h3 with h4 | h4
        · rw [h4]; rfl
        · simp at h4
  ⟨⟨h1, h2⟩, c5_grouping_sorts_partitions_and_sums sampleC5GroupBy sampleC5Rows h1 h2⟩

/-- **C2**: assigning a string that is not valid JSON to the `data` or
`styleConfig` property leaves the stored object, the shadow content and the
render counter unchanged (the setter returns before `#render`), and appends
the two `console.error` diagnostics. -/
theorem c2_invalid_json_keeps_state_and_skips_render (st : CState) (s : String)
    (hbad : jsonParse s = none) :
    ∃ st2 st3,
      TableMakerComponent.setData st (.str s) = .ok st2 ∧
      TableMakerComponent.setStyleConfig st (.str s) = .ok st3 ∧
      st2.tableData = st.tableData ∧ st2.style = st.style ∧
      st2.shadow = st.shadow ∧ st2.renderCount = st.renderCount ∧
      st2.console = st.console ++ [dataInvalidMsg s, parseErrMsg] ∧
      st3.tableData = st.tableData ∧ st3.style = st.style ∧
      st3.shadow = st.shadow ∧ st3.renderCount = st.renderCount ∧
      st3.console = st.console ++ [styleInvalidMsg s, parseErrMsg] := by
  refine ⟨{ st with console := st.console ++ [dataInvalidMsg s, parseErrMsg] },
    { st with console := st.console ++ [styleInvalidMsg s, parseErrMsg] },
    ?_, ?_, rfl, rfl, rfl, rfl, rfl, rfl, rfl, rfl, rfl, rfl⟩
  · simp only [TableMakerComponent.setData]
    rw [hbad]
  · simp only [TableMakerComponent.setStyleConfig]
    rw [hbad]

/-- Witness for the C2 theorem: the truncated JSON text `[1, 2` is rejected
and the populated initial state survives untouched. -/
theorem c2_invalid_json_keeps_state_and_skips_render_witness :
    jsonParse "[1, 2" = none ∧
    (∃ st2 st3,
      TableMakerComponent.setData initialCState (.str "[1, 2") = .ok st2 ∧
      TableMakerComponent.setStyleConfig initialCState (.str "[1, 2") = .ok st3 ∧
      st2.tableData = initialCState.tableData ∧ st2.style = initialCState.style ∧
      st2.shadow = initialCState.shadow ∧ st2.renderCount = initialCState.renderCount ∧
      st2.console = initialCState.console ++ [dataInvalidMsg "[1, 2", parseErrMsg] ∧
      st3.tableData = initialCState.tableData ∧ st3.style = initialCState.style ∧
      st3.shadow = initialCState.shadow ∧ st3.renderCount = initialCState.renderCount ∧
      st3.console = initialCState.console ++ [styleInvalidMsg "[1, 2", parseErrMsg]) :=
  ⟨by decide,
    c2_invalid_json_keeps_state_and_skips_render initialCState "[1, 2" (by decide)⟩

mutual

theorem jsonRoundTrip_id : ∀ (v : JVal), jsonClean v = true → jsonRoundTrip v = v
  | .num _, _ => rfl
  | .nan, h => by simp [jsonClean] at h
  | .bool _, _ => rfl
  | .str _, _ => rfl
  | .null, _ => rfl
  | .undef, h => by simp [jsonClean] at h
  | .arr xs, h => by
    rw [jsonRoundTrip, jsonRoundTripList_id xs (by simpa [jsonClean] using h)]
  | .obj fs, h => by
    rw [jsonRoundTrip, jsonRoundTripFields_id fs (by simpa [jsonClean] using h)]

theorem jsonRoundTripList_id :
    ∀ (xs : List JVal), jsonCleanList xs = true → jsonRoundTripList xs = xs
  | [], _ => rfl
  | x :: xs, h => by
    have h2 := h
    simp only [jsonCleanList, Bool.and_eq_true] at h2
    rw [jsonRoundTripList, jsonRoundTrip_id x h2.1, jsonRoundTripList_id xs h2.2]

theorem jsonRoundTripFields_id :
    ∀ (fs : List (String × JVal)), jsonCleanFields fs = true → jsonRoundTripFields fs = fs
  | [], _ => rfl
  | (k, v) :: fs, h => by
    have h2 := h
    simp only [jsonCleanFields, Bool.and_eq_true] at h2
    cases v with
    | undef => simp [jsonClean] at h2
    | num q =>
      rw [jsonRoundTripFields, jsonRoundTrip_id _ h2.1, jsonRoundTripFields_id fs h2.2]
      exact fun hh => JVal.noConfusion hh
    | nan => simp [jsonClean] at h2
    | bool b =>
      rw [jsonRoundTripFields, jsonRoundTrip_id _ h2.1, jsonRoundTripFields_id fs h2.2]
      exact fun hh => JVal.noConfusion hh
    | str s =>
      rw [jsonRoundTripFields, jsonRoundTrip_id _ h2.1, jsonRoundTripFields_id fs h2.2]
      exact fun hh => JVal.noConfusion hh
    | null =>
      rw [jsonRoundTripFields, jsonRoundTrip_id _ h2.1, jsonRoundTripFields_id fs h2.2]
      exact fun hh => JVal.noConfusion hh
    | arr xs =>
      rw [jsonRoundTripFields, jsonRoundTrip_id _ h2.1, jsonRoundTripFields_id fs h2.2]
      exact fun hh => JVal.noConfusion hh
    | obj gs =>
      rw [jsonRoundTripFields, jsonRoundTrip_id _ h2.1, jsonRoundTripFields_id fs h2.2]
      exact fun hh => JVal.noConfusion hh

end

theorem ensureCssType_obj (gs : List (String × JVal)) :
    ∃ hs, ensureCssType (.obj gs) = .ok (.obj hs) := by
  rcases hl : List.lookup "cssType" gs with _ | x
  · refine ⟨setField gs "cssType" (.str DEFAULTS.CSS_TYPE), ?_⟩
    simp only [ensureCssType]
    rw [hl]
  · cases x <;>
      first
        | (refine ⟨setField gs "cssType" (.str DEFAULTS.CSS_TYPE), ?_⟩
           simp only [ensureCssType]
           rw [hl]
           done)
        | (refine ⟨gs, ?_⟩
           simp only [ensureCssType]
           rw [hl]
           done)

theorem exc_bind_ok {ε α β : Type} (a : α) (f : α → Except ε β) :
    (Except.ok a >>= f : Except ε β) = f a := rfl

theorem setData_ok_nonstr_tableData (st : CState) (v : JVal) (st2 : CState)
    (hns : ∀ s2, v ≠ .str s2)
    (hset : TableMakerComponent.setData st v = .ok st2) : st2.tableData = v := by
  cases v with
  | str s => exact absurd rfl (hns s)
  | null => exact Except.noConfusion hset
  | undef => exact Except.noConfusion hset
  | num q =>
    have h2 := Except.ok.inj hset
    rw [← h2]
    cases hb : st.batchMode <;> simp [hb, renderNow]
  | nan =>
    have h2 := Except.ok.inj hset
    rw [← h2]
    cases hb : st.batchMode <;> simp [hb, renderNow]
  | bool b =>
    have h2 := Except.ok.inj hset
    rw [← h2]
    cases hb : st.batchMode <;> simp [hb, renderNow]
  | arr xs =>
    have h2 := Except.ok.inj hset
    rw [← h2]
    cases hb : st.batchMode <;> simp [hb, renderNow]
  | obj fs =>
    simp only [TableMakerComponent.setData, getMember] at hset
    rcases hl : List.lookup "style" fs with _ | sv
    · rw [hl] at hset
      have h2 := Except.ok.inj hset
      rw [← h2]
      cases hb : st.batchMode <;> simp [hb, renderNow]
    · rw [hl] at hset
      cases sv with
      | null =>
        have h2 := Except.ok.inj hset
        rw [← h2]
        cases hb : st.batchMode <;> simp [hb, renderNow]
      | undef =>
        have h2 := Except.ok.inj hset
        rw [← h2]
        cases hb : st.batchMode <;> simp [hb, renderNow]
      | num q => exact Except.noConfusion hset
      | nan => exact Except.noConfusion hset
      | bool b => exact Except.noConfusion hset
      | str s => exact Except.noConfusion hset
      | arr xs => exact Except.noConfusion hset
      | obj gs =>
        obtain ⟨hs, hE⟩ := ensureCssType_obj gs
        simp only [Option.getD] at hset
        rw [exc_bind_ok] at hset
        rw [show styleFallback (JVal.obj gs) = JVal.obj gs from rfl] at hset
        rw [hE] at hset
        have h2 := Except.ok.inj hset
        rw [← h2]
        cases hb : st.batchMode <;> simp [hb, renderNow]

/-- **C7**: a successful non-string `data` assignment stores the caller's
object itself, so reading the property back yields a structurally equal (in
fact identical) value; the render pipeline derives display cells from a
JSON round-trip copy of the rows, which is the identity on JSON-clean rows
(so the caller's rows are seen unchanged); and an explicit sort permutes the
stored row list in place, leaving the column spec and every row's field
values untouched. -/
theorem c7_data_roundtrip_deep_copy_sort_permutes
    (st : CState) (D : JVal) (st2 : CState)
    (hns : ∀ s2, D ≠ .str s2)
    (hset : TableMakerComponent.setData st D = .ok st2)
    (ts : TableMakerComponent.TState) (col : String) (asc : Bool)
    (rows : List JRow) (hclean : ∀ r ∈ rows, jsonCleanFields r = true) :
    st2.tableData = D ∧
    TableMakerComponent.deepCopyRows rows = rows ∧
    (TableMakerComponent.sortBy ts col asc).tableData.rows.Perm ts.tableData.rows ∧
    (TableMakerComponent.sortBy ts col asc).tableData.cols = ts.tableData.cols := by
  refine ⟨setData_ok_nonstr_tableData st D st2 hns hset, ?_, ?_, rfl⟩
  · unfold TableMakerComponent.deepCopyRows
    have h3 : rows.map jsonRoundTripFields = rows.map id :=
      List.map_congr_left (fun r hr => jsonRoundTripFields_id r (hclean r hr))
    rw [h3, List.map_id]
  · exact jsSortL_perm _ _

/-- Witness for the C7 theorem: a one-row data object survives the setter and
a sort untouched. -/
theorem c7_data_roundtrip_deep_copy_sort_permutes_witness :
    (∀ s2, c7D ≠ .str s2) ∧
    TableMakerComponent.setData initialCState c7D = .ok c7St2 ∧
    (∀ r ∈ c7Rows, jsonCleanFields r = true) ∧
    (c7St2.tableData = c7D ∧
     TableMakerComponent.deepCopyRows c7Rows = c7Rows ∧
     (TableMakerComponent.sortBy c7Ts "a" true).tableData.rows.Perm c7Ts.tableData.rows ∧
     (TableMakerComponent.sortBy c7Ts "a" true).tableData.cols = c7Ts.tableData.cols) :=
  have hns : ∀ s2, c7D ≠ .str s2 := fun _ h => JVal.noConfusion h
  have hset : TableMakerComponent.setData initialCState c7D = .ok c7St2 := by decide
  have hclean : ∀ r ∈ c7Rows, jsonCleanFields r = true := by
    intro r hr
    rcases List.mem_cons.mp hr with h | h
    · rw [h]; rfl
    · simp at h
  ⟨hns, hset, hclean,
    c7_data_roundtrip_deep_copy_sort_permutes initialCState c7D c7St2 hns hset
      c7Ts "a" true c7Rows hclean⟩

/-- **C6 counterexample**: a detail row's pane refutes the claim — its nested
content exists already at build time (before any reveal) and the first reveal
(toggle click) dispatches no notification event at all. -/
theorem c6_detail_row_eager_and_eventless :
    (TableMakerComponent.buildDetailRow sampleDetailRow).content ≠ [] ∧
    (TableMakerComponent.toggleDetailClick
      (TableMakerComponent.buildDetailRow sampleDetailRow)).2 = [] ∧
    (TableMakerComponent.toggleDetailClick
      (TableMakerComponent.buildDetailRow sampleDetailRow)).1.visible = true := by
  decide

/-- **C6** (amended): only tab content panes are lazily populated — the first
reveal of a still-unrendered tab pane dispatches the `renderTab` event with
`(path, tabID, tabSpec)` exactly once and clears the marker, after which no
call dispatches again; detail-row panes are built eagerly instead, start
hidden, and their toggle only flips visibility without dispatching any
event. -/
theorem c6_tab_pane_notifies_once_detail_rows_eager
    (path : JVal) (pane : TabPane) (hu : pane.unrendered = true)
    (row : JRow) (d2 : DetailRow) :
    (TabHandlerComponent.populateTabWithoutOpening path pane).2 =
      [.obj [("path", path), ("tabID", .str pane.tabID), ("tabSpec", pane.tabSpec)]] ∧
    (TabHandlerComponent.populateTabWithoutOpening path pane).1.unrendered = false ∧
    (∀ pane2 : TabPane, pane2.unrendered = false →
      TabHandlerComponent.populateTabWithoutOpening path pane2 = (pane2, [])) ∧
    (TabHandlerComponent.populateTabWithoutOpening path
        (TabHandlerComponent.populateTabWithoutOpening path pane).1).2 = [] ∧
    (TableMakerComponent.buildDetailRow row).visible = false ∧
    (TableMakerComponent.toggleDetailClick d2).2 = [] ∧
    (TableMakerComponent.toggleDetailClick d2).1.visible = !d2.visible ∧
    (TableMakerComponent.toggleDetailClick d2).1.content = d2.content := by
  refine ⟨?_, ?_, ?_, ?_, rfl, rfl, rfl, rfl⟩
  · simp [TabHandlerComponent.populateTabWithoutOpening, hu]
  · simp [TabHandlerComponent.populateTabWithoutOpening, hu]
  · intro pane2 h2
    simp [TabHandlerComponent.populateTabWithoutOpening, h2]
  · simp [TabHandlerComponent.populateTabWithoutOpening, hu]

/-- Witness for the C6 theorem on a concrete pane and detail row. -/
theorem c6_tab_pane_notifies_once_detail_rows_eager_witness :
    sampleTabPane.unrendered = true ∧
    ((TabHandlerComponent.populateTabWithoutOpening (.arr []) sampleTabPane).2 =
      [.obj [("path", .arr []), ("tabID", .str sampleTabPane.tabID),
        ("tabSpec", sampleTabPane.tabSpec)]] ∧
    (TabHandlerComponent.populateTabWithoutOpening (.arr []) sampleTabPane).1.unrendered
      = false ∧
    (∀ pane2 : TabPane, pane2.unrendered = false →
      TabHandlerComponent.populateTabWithoutOpening (.arr []) pane2 = (pane2, [])) ∧
    (TabHandlerComponent.populateTabWithoutOpening (.arr [])
        (TabHandlerComponent.populateTabWithoutOpening (.arr []) sampleTabPane).1).2 = [] ∧
    (TableMakerComponent.buildDetailRow sampleDetailRow).visible = false ∧
    (TableMakerComponent.toggleDetailClick
      (TableMakerComponent.buildDetailRow sampleDetailRow)).2 = [] ∧
    (TableMakerComponent.toggleDetailClick
      (TableMakerComponent.buildDetailRow sampleDetailRow)).1.visible =
        !(TableMakerComponent.buildDetailRow sampleDetailRow).visible ∧
    (TableMakerComponent.toggleDetailClick
      (TableMakerComponent.buildDetailRow sampleDetailRow)).1.content =
        (TableMakerComponent.buildDetailRow sampleDetailRow).content) :=
  ⟨rfl, c6_tab_pane_notifies_once_detail_rows_eager (.arr []) sampleTabPane rfl
    sampleDetailRow (TableMakerComponent.buildDetailRow sampleDetailRow)⟩

theorem firstLeafChainPanes_cons (hid tid : String) (spec : TabSpec)
    (n : Option HNode) (rest : List (String × TabSpec × Option HNode)) :
    firstLeafChainPanes hid ((tid, spec, n) :: rest) = (hid, tid) :: nestChain n := by
  cases n with
  | none => rfl
  | some child => cases child; rfl

theorem paneLookup_renderPanes :
    ∀ (specs : List TabSpec) (hid : String) (path : List String) (t : String)
      (spec : TabSpec) (nest : Option HNode),
      paneLookup (renderPanes hid path specs) t = some (spec, nest) →
      spec ∈ specs ∧ t = TabHandlerComponent.cssSafe spec.entryId ∧
        nest = renderNested hid path spec := by
  intro specs
  induction specs with
  | nil =>
    intro hid path t spec nest h
    simp [renderPanes, paneLookup] at h
  | cons t0 ts ih =>
    intro hid path t spec nest h
    simp only [renderPanes, paneLookup] at h
    by_cases he : TabHandlerComponent.cssSafe t0.entryId = t
    · rw [if_pos he] at h
      have h2 := Option.some.inj h
      injection h2 with h3 h4
      subst h3
      exact ⟨List.mem_cons_self _ _, he.symm, h4.symm⟩
    · rw [if_neg he] at h
      obtain ⟨hm, ht, hn⟩ := ih hid path t spec nest h
      exact ⟨List.mem_cons_of_mem _ hm, ht, hn⟩

theorem specDepth_le_of_mem :
    ∀ (specs : List TabSpec) (spec : TabSpec), spec ∈ specs →
      specDepth spec ≤ specsDepth specs := by
  intro specs
  induction specs with
  | nil =>
    intro spec h
    simp at h
  | cons t0 ts ih =>
    intro spec h
    rcases List.mem_cons.mp h with h2 | h2
    · subst h2
      exact le_max_left _ _
    · exact le_trans (ih spec h2) (le_max_right _ _)

theorem wfSpec_of_mem :
    ∀ (specs : List TabSpec) (spec : TabSpec), wfSpecs specs = true →
      spec ∈ specs → wfSpec spec = true := by
  intro specs
  induction specs with
  | nil =>
    intro spec _ h
    simp at h
  | cons t0 ts ih =>
    intro spec hw h
    simp only [wfSpecs, Bool.and_eq_true] at hw
    rcases List.mem_cons.mp h with h2 | h2
    · subst h2
      exact hw.1
    · exact ih spec hw.2 h2

theorem leafId_eq_of_wf (c : TabSpec) (hw : wfSpec c = true) :
    TabSpec.leafId c = TabHandlerComponent.cssSafe c.entryId := by
  cases c with
  | mk tid title tabs =>
    cases tid with
    | none => rfl
    | some i =>
      simp only [wfSpec, Bool.and_eq_true] at hw
      have h2 : TabHandlerComponent.cssSafe i = i := by
        have h3 := hw.1
        simpa using h3
      show i = TabHandlerComponent.cssSafe i
      exact h2.symm

theorem openCascade_renderTabs :
    ∀ (fuel : Nat) (specs : List TabSpec) (hid : String) (path : List String)
      (t : String) (spec : TabSpec) (nest : Option HNode),
      wfSpecs specs = true → specsDepth specs < fuel →
      paneLookup (renderTabs hid path specs).panes t = some (spec, nest) →
      openCascadeF fuel (renderTabs hid path specs) t =
        some ((hid, t) :: nestChain nest) := by
  intro fuel
  induction fuel with
  | zero =>
    intro specs _ _ _ _ _ _ hd _
    omega
  | succ fuel ih =>
    intro specs hid path t spec nest hwf hdepth hlook
    obtain ⟨hmem, ht, hnest⟩ := paneLookup_renderPanes specs hid path t spec nest hlook
    cases nest with
    | none =>
      simp only [openCascadeF]
      rw [hlook]
      rfl
    | some child =>
      cases spec with
      | mk tid title tabs =>
        cases tabs with
        | nil => simp [renderNested] at hnest
        | cons c cs =>
          have hwfs : wfSpec (.mk tid title (c :: cs)) = true :=
            wfSpec_of_mem specs _ hwf hmem
          have hwfcs : wfSpecs (c :: cs) = true := by
            simp only [wfSpec, Bool.and_eq_true] at hwfs
            exact hwfs.2
          have hwfc : wfSpec c = true := by
            simp only [wfSpecs, Bool.and_eq_true] at hwfcs
            exact hwfcs.1
          have hleaf := leafId_eq_of_wf c hwfc
          have hdep2 : specsDepth (c :: cs) < fuel := by
            have h5 := specDepth_le_of_mem specs _ hmem
            simp only [specDepth] at h5
            omega
          simp only [renderNested] at hnest
          have hc := Option.some.inj hnest
          simp only [openCascadeF, hlook]
          rw [hc]
          generalize (hid ++ "_nested_" ++
            TabSpec.leafId (TabSpec.mk tid title (c :: cs))) = nId
          have hlook2 : paneLookup
              (renderPanes nId (path ++ [nId]) (c :: cs)) c.leafId =
              some (c, renderNested nId (path ++ [nId]) c) := by
            simp only [renderPanes, paneLookup]
            rw [hleaf, if_pos rfl]
          have hrec := ih (c :: cs) nId (path ++ [nId]) c.leafId c
            (renderNested nId (path ++ [nId]) c) hwfcs hdep2 hlook2
          simp only [renderTabs, renderPanes] at hrec
          simp only [renderPanes, firstSpecOf, HNode.panes, HNode.hid]
          rw [hrec]
          rw [show nestChain (some (HNode.mk nId (path ++ [nId])
              ((TabHandlerComponent.cssSafe c.entryId, c,
                renderNested nId (path ++ [nId]) c)
                :: renderPanes nId (path ++ [nId]) cs))) =
            (nId, TabHandlerComponent.cssSafe c.entryId) ::
              nestChain (renderNested nId (path ++ [nId]) c) from by
            simp only [nestChain, firstLeafChain]
            exact firstLeafChainPanes_cons _ _ _ _ _]
          rw [hleaf]
          rfl

/-- **C9 counterexample**: immediately after `_renderTabs` — with no selection
of the entry having happened (the handler auto-opens only the FIRST tab,
`Home`) — the pane of the second entry already hosts its fully built nested
handler, refuting "created lazily"; the source comment itself says the nested
handlers are created EAGERLY. -/
theorem c9_nested_handler_exists_before_selection :
    (paneLookup (renderTabs "root" ["root"] c9Specs).panes "More").map
      (fun p => p.2.isSome) = some true := by
  rfl

/-- **C9** (amended): for every spec entry carrying a non-empty nested `tabs`
array, `_renderTabs` creates the child handler EAGERLY inside that entry's
pane (it is present in the rendered tree before any selection), and selecting
the entry cascades depth-first: `openTab` opens the child's first tab,
recursively down to the deepest first leaf, producing exactly the first-leaf
selection chain. -/
theorem c9_nested_handlers_eager_cascade_to_first_leaf
    (hid : String) (path : List String) (specs : List TabSpec)
    (t : String) (spec : TabSpec) (child : HNode) (fuel : Nat)
    (hwf : wfSpecs specs = true) (hdepth : specsDepth specs < fuel)
    (hlook : paneLookup (renderTabs hid path specs).panes t =
      some (spec, some child)) :
    spec.tabs ≠ [] ∧
    some child = renderNested hid path spec ∧
    openCascadeF fuel (renderTabs hid path specs) t =
      some ((hid, t) :: firstLeafChain child) := by
  obtain ⟨hmem, ht, hnest⟩ :=
    paneLookup_renderPanes specs hid path t spec (some child) hlook
  refine ⟨?_, hnest, ?_⟩
  · intro hemp
    cases spec with
    | mk tid title tabs =>
      simp only [TabSpec.tabs] at hemp
      subst hemp
      simp [renderNested] at hnest
  · have h2 := openCascade_renderTabs fuel specs hid path t spec (some child)
      hwf hdepth hlook
    simpa [nestChain] using h2

/-- Witness for the C9 theorem on a concrete two-level spec. -/
theorem c9_nested_handlers_eager_cascade_to_first_leaf_witness :
    wfSpecs c9Specs = true ∧ specsDepth c9Specs < 3 ∧
    paneLookup (renderTabs "root" ["root"] c9Specs).panes "More" =
      some (.mk none "More" [.mk none "Deep" []], some c9Child) ∧
    ((TabSpec.mk none "More" [.mk none "Deep" []]).tabs ≠ [] ∧
     some c9Child = renderNested "root" ["root"]
       (.mk none "More" [.mk none "Deep" []]) ∧
     openCascadeF 3 (renderTabs "root" ["root"] c9Specs) "More" =
       some (("root", "More") :: firstLeafChain c9Child)) :=
  ⟨rfl, by decide, rfl,
    c9_nested_handlers_eager_cascade_to_first_leaf "root" ["root"] c9Specs "More"
      (.mk none "More" [.mk none "Deep" []]) c9Child 3 rfl (by decide) rfl⟩
